import Mathlib

/-!
Verification of the core entity-extraction and ranking engine of the
linkedin-cli repository against its natural-language specification.

The definitions below are a shallow embedding of `src/core/linkedin.ts`:
pure TypeScript functions become Lean functions on `String` / `List Char`,
JavaScript regular-expression searches become explicit left-to-right
scanners, JavaScript `Map` objects become association lists, and the
stateful collection loops become explicit recursion with a fuel argument.
JavaScript strings are modelled as Lean strings (lists of Unicode code
points); `String.prototype.toLowerCase` is modelled by `Char.toLower`
(exact on the ASCII fragment the repository manipulates).
-/

/-! ## Character classes and basic list helpers -/

/-- Decides membership in the whitespace class of JavaScript regular
expressions (the class written as a backslash-s): tab, LF, VT, FF, CR,
space, NBSP, BOM and the Unicode space separators. -/
def jsWhitespace (c : Char) : Bool :=
  let n := c.toNat
  n == 9 || n == 10 || n == 11 || n == 12 || n == 13 || n == 32 || n == 0xa0 ||
  n == 0x1680 || (0x2000 ≤ n && n ≤ 0x200a) || n == 0x2028 || n == 0x2029 ||
  n == 0x202f || n == 0x205f || n == 0x3000 || n == 0xfeff

/-- Lower-case ASCII letter or ASCII digit: the characters kept by the
tokenizer's character class `[a-z0-9]` after lower-casing. -/
def lowerAlnum (c : Char) : Bool :=
  (97 ≤ c.toNat && c.toNat ≤ 122) || (48 ≤ c.toNat && c.toNat ≤ 57)

/-- Decides whether `pat` is an initial segment of `s`; models
`String.prototype.startsWith`. -/
def leadsWith : (pat : List Char) → (s : List Char) → Bool
  | [], _ => true
  | _ :: _, [] => false
  | c :: cs, d :: ds => c == d && leadsWith cs ds

theorem dropWhile_length_le (p : α → Bool) : (l : List α) → (l.dropWhile p).length ≤ l.length
  | [] => Nat.le_refl _
  | a :: l => by
    rw [List.dropWhile]
    cases p a <;> simp
    exact Nat.le_succ_of_le (dropWhile_length_le p l)

/-- Accumulator worker for `splitRuns`: `acc` holds the current run in
reverse order. -/
def splitRunsGo (p : Char → Bool) : List Char → List Char → List (List Char)
  | [], acc => if acc.isEmpty then [] else [acc.reverse]
  | c :: cs, acc =>
    if p c then splitRunsGo p cs (c :: acc)
    else if acc.isEmpty then splitRunsGo p cs []
    else acc.reverse :: splitRunsGo p cs []

/-- Splits a list into its maximal runs of characters satisfying `p`,
dropping the separating characters; models the combination of
`replace` with a separator class followed by `split` on whitespace runs
(empty fragments produced by JavaScript `split` are dropped by the
subsequent length filter in every use site). -/
def splitRuns (p : Char → Bool) (l : List Char) : List (List Char) :=
  splitRunsGo p l []

/-! ## Token-based similarity scoring (linkedin.ts lines 468-491) -/

/-- Embedding of `tokenize`: lower-case the string, treat every character
outside `[a-z0-9]` and the whitespace class as a separator (the source
replaces the class complement `[^a-z0-9 whitespace]` by a space, so both
original whitespace and replaced characters separate tokens), split into
maximal runs, and keep tokens of length greater than 2. -/
def tokenize (value : String) : List String :=
  ((splitRuns lowerAlnum (value.data.map Char.toLower)).filter
    (fun t => 2 < t.length)).map (fun t => String.mk t)

/-- Embedding of `sharedTokenCount`: zero when either input is empty
(JavaScript falsiness of the empty string), otherwise the number of
distinct tokens of `a` that also occur among the tokens of `b`
(the source iterates over the `Set` of tokens of `a`, which contains
each token once, and tests membership in the `Set` of tokens of `b`). -/
def sharedTokenCount (a b : String) : Nat :=
  if a = "" || b = "" then 0
  else ((tokenize a).dedup.filter (fun t => (tokenize b).contains t)).length

/-! ## Data model (linkedin.ts interfaces) -/

structure MutualConnectionResult where
  name : String
  headline : String
  location : String
  connectionDegree : String
  profileUrl : String
deriving Repr, DecidableEq

structure WarmIntroTargetContext where
  profileUrl : String
  name : String
  headline : String
  location : String
deriving Repr, DecidableEq

/-- Result record of the warm-intro path builder.  The source stores the
path as a 3-tuple; it is modelled as a list whose 3-element shape is part
of the verified statements. -/
structure WarmIntroPathResult where
  score : Int
  rationale : List String
  sourceProfileUrl : String
  via : MutualConnectionResult
  targetProfileUrl : String
  targetName : String
  path : List String
deriving Repr, DecidableEq

/-! ## Locale-aware name comparison -/

/-- Three-way lexicographic comparison of sequences of natural numbers,
returning -1, 0 or 1. -/
def lexCompareNat : List Nat → List Nat → Int
  | [], [] => 0
  | [], _ :: _ => -1
  | _ :: _, [] => 1
  | a :: as, b :: bs =>
    if a < b then -1 else if b < a then 1 else lexCompareNat as bs

/-- Primary collation key of a string: its code points after
case-folding. -/
def primaryKey (s : String) : List Nat := s.data.map (fun c => c.toLower.toNat)

/-- Tertiary (case) collation key of a string: 0 for lower case, 1 for
upper case, position by position. -/
def caseKey (s : String) : List Nat :=
  s.data.map (fun c => if c.isUpper then 1 else 0)

/-- Model of `String.prototype.localeCompare` under the default (root)
collation, exact on strings of ASCII letters, digits and spaces: a
case-insensitive primary comparison, with ties broken by the case
pattern, lower case ordering before upper case. -/
def localeCompare (a b : String) : Int :=
  if lexCompareNat (primaryKey a) (primaryKey b) ≠ 0 then
    lexCompareNat (primaryKey a) (primaryKey b)
  else lexCompareNat (caseKey a) (caseKey b)

/-! ## Warm intro path building (linkedin.ts lines 497-549) -/

/-- Embedding of the per-mutual scoring body of
`buildWarmIntroPathsFromMutuals`: base score 40; degree bonus +30 when the
connection degree starts with "1", +15 when it starts with "2"; a
headline-token bonus capped at 20 and a location-token bonus capped at 15,
each added only when positive; a -5 penalty for an empty headline; one
rationale line appended by each branch, in source order. -/
def scoreMutual (sourceProfileUrl : String) (target : WarmIntroTargetContext)
    (m : MutualConnectionResult) : WarmIntroPathResult :=
  let score : Int := 40
  let rationale : List String := []
  let step1 : Int × List String :=
    if leadsWith "1".data m.connectionDegree.data then
      (score + 30, rationale ++ ["Mutual appears as a first-degree connection."])
    else if leadsWith "2".data m.connectionDegree.data then
      (score + 15, rationale ++ ["Mutual appears as a second-degree connection."])
    else
      (score, rationale ++ ["Connection degree is not explicit."])
  let sharedHeadline := sharedTokenCount m.headline target.headline
  let step2 : Int × List String :=
    if 0 < sharedHeadline then
      (step1.1 + ((min 20 (sharedHeadline * 4) : Nat) : Int),
        step1.2 ++ ["Shared headline context tokens: " ++ toString sharedHeadline ++ "."])
    else step1
  let sharedLocation := sharedTokenCount m.location target.location
  let step3 : Int × List String :=
    if 0 < sharedLocation then
      (step2.1 + ((min 15 (sharedLocation * 5) : Nat) : Int),
        step2.2 ++ ["Shared location context tokens: " ++ toString sharedLocation ++ "."])
    else step2
  let step4 : Int × List String :=
    if m.headline = "" then
      (step3.1 - 5, step3.2 ++ ["Limited headline context available."])
    else step3
  { score := step4.1
    rationale := step4.2
    sourceProfileUrl := sourceProfileUrl
    via := m
    targetProfileUrl := target.profileUrl
    targetName := target.name
    path := [sourceProfileUrl, m.profileUrl, target.profileUrl] }

/-- Embedding of the sort comparator
`(a, b) => b.score - a.score || a.via.name.localeCompare(b.via.name)`. -/
def pathCompare (a b : WarmIntroPathResult) : Int :=
  if b.score - a.score ≠ 0 then b.score - a.score
  else localeCompare a.via.name b.via.name

/-- Embedding of `buildWarmIntroPathsFromMutuals`: score every mutual and
sort by the comparator.  `Array.prototype.sort` is required to be stable
by the ECMAScript specification; for a consistent comparator every stable
sort produces the same list, so it is modelled by the stable insertion
sort. -/
def buildWarmIntroPathsFromMutuals (sourceProfileUrl : String)
    (target : WarmIntroTargetContext) (mutuals : List MutualConnectionResult) :
    List WarmIntroPathResult :=
  List.insertionSort (fun a b => pathCompare a b ≤ 0)
    (mutuals.map (scoreMutual sourceProfileUrl target))

/-! ## Specification-side definitions for claims C1 and C2 -/

/-- Token set of a string, following the specification's words: "the set
of lowercase alphanumeric tokens of length > 2". -/
def specTokens (s : String) : Finset String := (tokenize s).toFinset

/-- Shared-token count as worded by the specification: the size of the
intersection of the two token sets, and 0 when either input is empty. -/
def specSharedTokenCount (a b : String) : Nat :=
  if a = "" ∨ b = "" then 0 else ((specTokens a) ∩ (specTokens b)).card

/-- Scored path as worded by claim C1: score 40, plus 30 / 15 / 0 by
degree, plus `min(20, 4 x sharedTokenCount(headlines))` when positive,
plus `min(15, 5 x sharedTokenCount(locations))` when positive, minus 5
for an empty headline; one rationale string per applied term in the order
degree, headline bonus, location bonus, penalty; path
`[source, mutual, target]`. -/
def specScoredPath (sourceProfileUrl : String) (target : WarmIntroTargetContext)
    (m : MutualConnectionResult) : WarmIntroPathResult :=
  let hl := specSharedTokenCount m.headline target.headline
  let lo := specSharedTokenCount m.location target.location
  { score := 40
      + (if leadsWith "1".data m.connectionDegree.data then 30
         else if leadsWith "2".data m.connectionDegree.data then 15 else 0)
      + (if 0 < hl then ((min 20 (4 * hl) : Nat) : Int) else 0)
      + (if 0 < lo then ((min 15 (5 * lo) : Nat) : Int) else 0)
      - (if m.headline = "" then 5 else 0)
    rationale :=
      [if leadsWith "1".data m.connectionDegree.data then
          "Mutual appears as a first-degree connection."
       else if leadsWith "2".data m.connectionDegree.data then
          "Mutual appears as a second-degree connection."
       else "Connection degree is not explicit."]
      ++ (if 0 < hl then ["Shared headline context tokens: " ++ toString hl ++ "."] else [])
      ++ (if 0 < lo then ["Shared location context tokens: " ++ toString lo ++ "."] else [])
      ++ (if m.headline = "" then ["Limited headline context available."] else [])
    sourceProfileUrl := sourceProfileUrl
    via := m
    targetProfileUrl := target.profileUrl
    targetName := target.name
    path := [sourceProfileUrl, m.profileUrl, target.profileUrl] }

theorem sharedTokenCount_eq_spec (a b : String) :
    sharedTokenCount a b = specSharedTokenCount a b := by
  unfold sharedTokenCount specSharedTokenCount
  by_cases ha : a = ""
  · simp [ha]
  · by_cases hb : b = ""
    · simp [ha, hb]
    · simp only [ha, hb, Bool.or_eq_true, decide_eq_true_eq, false_or, if_neg, or_self,
        not_false_iff]
      have hnd : ((tokenize a).dedup.filter (fun t => (tokenize b).contains t)).Nodup :=
        (List.nodup_dedup _).filter _
      rw [← List.toFinset_card_of_nodup hnd]
      congr 1
      ext x
      simp [specTokens, List.mem_filter, List.mem_dedup, List.elem_iff]

theorem scoreMutual_eq_spec (src : String) (target : WarmIntroTargetContext)
    (m : MutualConnectionResult) :
    scoreMutual src target m = specScoredPath src target m := by
  unfold scoreMutual specScoredPath
  simp only [sharedTokenCount_eq_spec]
  split_ifs <;> simp_all [Nat.mul_comm]

/-! ## Order-theoretic facts about the comparators -/

theorem lexCompareNat_self : ∀ a : List Nat, lexCompareNat a a = 0
  | [] => rfl
  | _ :: as => by simp [lexCompareNat, lexCompareNat_self as]

theorem lexCompareNat_eq_zero :
    ∀ {a b : List Nat}, lexCompareNat a b = 0 → a = b
  | [], [], _ => rfl
  | [], b :: bs, h => by simp [lexCompareNat] at h
  | a :: as, [], h => by simp [lexCompareNat] at h
  | x :: as, y :: bs, h => by
    simp only [lexCompareNat] at h
    split_ifs at h with h1 h2
    · exact absurd h (by norm_num)
    · have hxy : x = y := by omega
      rw [hxy, lexCompareNat_eq_zero h]

theorem lexCompareNat_neg : ∀ a b : List Nat, lexCompareNat a b = -(lexCompareNat b a)
  | [], [] => rfl
  | [], _ :: _ => rfl
  | _ :: _, [] => rfl
  | x :: as, y :: bs => by
    simp only [lexCompareNat]
    split_ifs <;> first | omega | exact lexCompareNat_neg as bs

theorem lexCompareNat_trans (a : List Nat) :
    ∀ b c : List Nat, lexCompareNat a b ≤ 0 → lexCompareNat b c ≤ 0 →
      lexCompareNat a c ≤ 0 := by
  induction a with
  | nil => intro b c _ _; cases c <;> simp [lexCompareNat]
  | cons x as ih =>
    intro b c h1 h2
    cases b with
    | nil => simp [lexCompareNat] at h1
    | cons y bs =>
      cases c with
      | nil => simp [lexCompareNat] at h2
      | cons z cs =>
        simp only [lexCompareNat] at h1 h2 ⊢
        split_ifs at h1 h2 ⊢ <;> first | omega | exact ih bs cs h1 h2

theorem localeCompare_trans (a b c : String) :
    localeCompare a b ≤ 0 → localeCompare b c ≤ 0 → localeCompare a c ≤ 0 := by
  intro h1 h2
  unfold localeCompare at h1 h2 ⊢
  by_cases hab : lexCompareNat (primaryKey a) (primaryKey b) = 0
  · have hab' := lexCompareNat_eq_zero hab
    rw [if_neg (by simp [hab])] at h1
    by_cases hbc : lexCompareNat (primaryKey b) (primaryKey c) = 0
    · have hbc' := lexCompareNat_eq_zero hbc
      rw [if_neg (by simp [hbc])] at h2
      have hac : lexCompareNat (primaryKey a) (primaryKey c) = 0 := by
        rw [hab', hbc']; exact lexCompareNat_self _
      rw [if_neg (by simp [hac])]
      exact lexCompareNat_trans _ _ _ h1 h2
    · rw [if_pos hbc] at h2
      have hac : lexCompareNat (primaryKey a) (primaryKey c) ≠ 0 := by
        rw [hab']; exact hbc
      rw [if_pos hac, hab']
      exact h2
  · rw [if_pos hab] at h1
    by_cases hbc : lexCompareNat (primaryKey b) (primaryKey c) = 0
    · have hbc' := lexCompareNat_eq_zero hbc
      have hac : lexCompareNat (primaryKey a) (primaryKey c) ≠ 0 := by
        rw [← hbc']; exact hab
      rw [if_pos hac, ← hbc']
      exact h1
    · rw [if_pos hbc] at h2
      have hle := lexCompareNat_trans _ _ _ h1 h2
      have hac : lexCompareNat (primaryKey a) (primaryKey c) ≠ 0 := by
        intro h0
        have h0' := lexCompareNat_eq_zero h0
        rw [h0'] at h1
        have hneg := lexCompareNat_neg (primaryKey c) (primaryKey b)
        have hlt : lexCompareNat (primaryKey b) (primaryKey c) < 0 :=
          lt_of_le_of_ne h2 hbc
        have hneg2 := lexCompareNat_neg (primaryKey b) (primaryKey c)
        omega
      rw [if_pos hac]
      exact hle

theorem localeCompare_total (a b : String) :
    localeCompare a b ≤ 0 ∨ localeCompare b a ≤ 0 := by
  unfold localeCompare
  have h1 := lexCompareNat_neg (primaryKey a) (primaryKey b)
  have h2 := lexCompareNat_neg (caseKey a) (caseKey b)
  by_cases hab : lexCompareNat (primaryKey a) (primaryKey b) = 0
  · have hba : lexCompareNat (primaryKey b) (primaryKey a) = 0 := by omega
    rw [if_neg (by simp [hab]), if_neg (by simp [hba])]
    omega
  · have hba : lexCompareNat (primaryKey b) (primaryKey a) ≠ 0 := by omega
    rw [if_pos hab, if_pos hba]
    omega

theorem pathCompare_le_iff (a b : WarmIntroPathResult) :
    pathCompare a b ≤ 0 ↔
      (b.score < a.score ∨
        (b.score = a.score ∧ localeCompare a.via.name b.via.name ≤ 0)) := by
  unfold pathCompare
  by_cases h : b.score - a.score ≠ 0
  · rw [if_pos h]
    constructor
    · intro hle; left; omega
    · intro hor
      rcases hor with h' | ⟨h', _⟩ <;> omega
  · rw [if_neg h]
    constructor
    · intro hle; right; exact ⟨by omega, hle⟩
    · intro hor
      rcases hor with h' | ⟨_, h'⟩
      · omega
      · exact h'

theorem pathCompare_le_trans (a b c : WarmIntroPathResult) :
    pathCompare a b ≤ 0 → pathCompare b c ≤ 0 → pathCompare a c ≤ 0 := by
  intro h1 h2
  rw [pathCompare_le_iff] at h1 h2 ⊢
  rcases h1 with h1 | ⟨h1e, h1l⟩
  · rcases h2 with h2 | ⟨h2e, _⟩
    · left; omega
    · left; omega
  · rcases h2 with h2 | ⟨h2e, h2l⟩
    · left; omega
    · right
      exact ⟨by omega, localeCompare_trans _ _ _ h1l h2l⟩

theorem pathCompare_le_total (a b : WarmIntroPathResult) :
    pathCompare a b ≤ 0 ∨ pathCompare b a ≤ 0 := by
  rw [pathCompare_le_iff, pathCompare_le_iff]
  rcases lt_trichotomy a.score b.score with h | h | h
  · right; left; exact h
  · rcases localeCompare_total a.via.name b.via.name with hl | hl
    · left; right; exact ⟨h.symm, hl⟩
    · right; right; exact ⟨h, hl⟩
  · left; left; exact h

/-! ## Claim C1: per-mutual scoring -/

/-- C1: for every source id, target context and list of mutual-connection
records, `buildWarmIntroPathsFromMutuals` produces exactly one scored path
per mutual (the output is a permutation of the per-mutual map), and that
path has the score demanded by the specification (base 40, degree bonus
30/15/0 by the leading character of the connection degree, headline bonus
`min(20, 4 x shared)` when positive, location bonus `min(15, 5 x shared)`
when positive, penalty 5 for an empty headline, with `shared` the size of
the intersection of the token sets), exactly one rationale line per
applied term in the order degree / headline / location / penalty, and the
path `[source, mutual, target]` — all recorded in `specScoredPath`. -/
theorem C1_warm_intro_scoring (src : String) (target : WarmIntroTargetContext)
    (mutuals : List MutualConnectionResult) :
    (buildWarmIntroPathsFromMutuals src target mutuals).Perm
      (mutuals.map (specScoredPath src target)) := by
  unfold buildWarmIntroPathsFromMutuals
  have he : scoreMutual src target = specScoredPath src target :=
    funext (scoreMutual_eq_spec src target)
  rw [he]
  exact List.perm_insertionSort _ _

/-! ## Claim C2: output ordering -/

/-- Target context of the specification's two-mutual ranking example. -/
def specExampleTarget : WarmIntroTargetContext :=
  { profileUrl := "https://www.linkedin.com/in/target/"
    name := "Target Person"
    headline := "Partner at Alpha Ventures"
    location := "San Francisco Bay Area" }

/-- Mutual A of the specification's ranking example. -/
def specExampleMutualA : MutualConnectionResult :=
  { name := "Mutual Low", headline := "Designer", location := "Austin, Texas"
    connectionDegree := "2nd", profileUrl := "https://www.linkedin.com/in/mutual-low/" }

/-- Mutual B of the specification's ranking example. -/
def specExampleMutualB : MutualConnectionResult :=
  { name := "Mutual High", headline := "Partner at Alpha Ventures"
    location := "San Francisco, California, United States"
    connectionDegree := "1st", profileUrl := "https://www.linkedin.com/in/mutual-high/" }

/-- Equal-scored mutual with the lower-case name "a". -/
def tieExampleA : MutualConnectionResult :=
  { name := "a", headline := "", location := "", connectionDegree := "", profileUrl := "u1" }

/-- Equal-scored mutual with the upper-case name "B". -/
def tieExampleB : MutualConnectionResult :=
  { name := "B", headline := "", location := "", connectionDegree := "", profileUrl := "u2" }

/-- C2 (counterexample): two mutuals with equal scores (35 each) named
"a" and "B" are returned in the order "a", "B", because the source breaks
ties with `localeCompare` (case-insensitive primary collation); ascending
lexical (code-point) order of the names would require "B" (code point 66)
before "a" (code point 97), so the claim's tie-ordering statement is false
on the code. -/
theorem C2_counterexample :
    (buildWarmIntroPathsFromMutuals "s" specExampleTarget [tieExampleA, tieExampleB]).map
        (fun p => p.via.name) = ["a", "B"]
    ∧ (buildWarmIntroPathsFromMutuals "s" specExampleTarget [tieExampleA, tieExampleB]).map
        (fun p => p.score) = [35, 35]
    ∧ ¬ (("a" : String).data ≤ ("B" : String).data) :=
  ⟨by rfl, by rfl, by decide⟩

/-- C2 (amended): the list returned by `buildWarmIntroPathsFromMutuals` is
sorted in descending order of score, and any two paths with equal scores
appear in ascending order of the locale-aware comparison of the mutuals'
names (case-insensitive primary collation with lower-case-first
tie-break — not raw code-point lexical order); on the specification's
two-mutual example, Mutual B is first with a strictly higher score
(92 over 55) and path `[source, B, target]`. -/
theorem C2_warm_intro_ordering (src : String) (target : WarmIntroTargetContext)
    (mutuals : List MutualConnectionResult) :
    ((buildWarmIntroPathsFromMutuals src target mutuals).Pairwise
      (fun a b => b.score < a.score ∨
        (b.score = a.score ∧ localeCompare a.via.name b.via.name ≤ 0)))
    ∧ ((buildWarmIntroPathsFromMutuals "https://www.linkedin.com/in/me/" specExampleTarget
          [specExampleMutualA, specExampleMutualB]).map (fun p => (p.via.name, p.score))
        = [("Mutual High", 92), ("Mutual Low", 55)])
    ∧ ((buildWarmIntroPathsFromMutuals "https://www.linkedin.com/in/me/" specExampleTarget
          [specExampleMutualA, specExampleMutualB]).map (fun p => p.path)
        = [["https://www.linkedin.com/in/me/", "https://www.linkedin.com/in/mutual-high/",
            "https://www.linkedin.com/in/target/"],
           ["https://www.linkedin.com/in/me/", "https://www.linkedin.com/in/mutual-low/",
            "https://www.linkedin.com/in/target/"]]) := by
  refine ⟨?_, by decide, by decide⟩
  haveI : IsTrans WarmIntroPathResult (fun a b => pathCompare a b ≤ 0) :=
    ⟨pathCompare_le_trans⟩
  haveI : IsTotal WarmIntroPathResult (fun a b => pathCompare a b ≤ 0) :=
    ⟨pathCompare_le_total⟩
  have hs := List.sorted_insertionSort (fun a b => pathCompare a b ≤ 0)
    (mutuals.map (scoreMutual src target))
  unfold buildWarmIntroPathsFromMutuals
  exact hs.imp (fun hab => (pathCompare_le_iff _ _).mp hab)

/-! ## A first-match scanner: JavaScript regular-expression search order -/

/-- Tries `f` at successive start positions `i, i+1, ...` (at most `fuel`
positions) and returns the first hit; models the left-to-right search of
an unanchored JavaScript regular expression. -/
def scanIdx (f : Nat → Option α) : Nat → Nat → Option α
  | 0, _ => none
  | fuel + 1, i => (f i).orElse (fun _ => scanIdx f fuel (i + 1))

/-- Searches positions `0 .. n` inclusive. -/
def searchIdx (f : Nat → Option α) (n : Nat) : Option α :=
  scanIdx f (n + 1) 0

theorem scanIdx_some_iff (f : Nat → Option α) :
    ∀ (fuel i : Nat) (a : α),
      scanIdx f fuel i = some a ↔
        ∃ k, k < fuel ∧ f (i + k) = some a ∧ ∀ j, j < k → f (i + j) = none := by
  intro fuel
  induction fuel with
  | zero => intro i a; simp [scanIdx]
  | succ n ih =>
    intro i a
    simp only [scanIdx]
    cases hf : f i with
    | some b =>
      simp only [Option.orElse, hf]
      constructor
      · intro h
        refine ⟨0, Nat.succ_pos n, ?_, fun j hj => absurd hj (Nat.not_lt_zero j)⟩
        rw [Nat.add_zero, hf]
        exact h
      · rintro ⟨k, _, hk, hmin⟩
        cases k with
        | zero => rw [Nat.add_zero, hf] at hk; exact hk
        | succ m =>
          have := hmin 0 (Nat.succ_pos m)
          rw [Nat.add_zero, hf] at this
          exact absurd this (by simp)
    | none =>
      simp only [Option.orElse, hf]
      rw [ih (i + 1) a]
      constructor
      · rintro ⟨k, hk, hsome, hmin⟩
        refine ⟨k + 1, Nat.succ_lt_succ hk, by rw [Nat.add_comm k 1, ← Nat.add_assoc]; exact hsome, ?_⟩
        intro j hj
        cases j with
        | zero => rw [Nat.add_zero]; exact hf
        | succ m =>
          have h2 := hmin m (Nat.lt_of_succ_lt_succ hj)
          rw [show i + 1 + m = i + (m + 1) from by omega] at h2
          exact h2
      · rintro ⟨k, hk, hsome, hmin⟩
        cases k with
        | zero => rw [Nat.add_zero, hf] at hsome; exact absurd hsome (by simp)
        | succ m =>
          refine ⟨m, Nat.lt_of_succ_lt_succ hk,
            by rw [show i + 1 + m = i + (m + 1) from by omega]; exact hsome, ?_⟩
          intro j hj
          have h2 := hmin (j + 1) (Nat.succ_lt_succ hj)
          rw [show i + (j + 1) = i + 1 + j from by omega] at h2
          exact h2

theorem scanIdx_none_iff (f : Nat → Option α) :
    ∀ (fuel i : Nat),
      scanIdx f fuel i = none ↔ ∀ k, k < fuel → f (i + k) = none := by
  intro fuel
  induction fuel with
  | zero => intro i; simp [scanIdx]
  | succ n ih =>
    intro i
    simp only [scanIdx]
    cases hf : f i with
    | some b =>
      simp only [Option.orElse, hf]
      constructor
      · intro h; exact absurd h (by simp)
      · intro h
        have := h 0 (Nat.succ_pos n)
        rw [Nat.add_zero, hf] at this
        exact absurd this (by simp)
    | none =>
      simp only [Option.orElse, hf]
      rw [ih (i + 1)]
      constructor
      · intro h k hk
        cases k with
        | zero => rw [Nat.add_zero]; exact hf
        | succ m =>
          have h2 := h m (Nat.lt_of_succ_lt_succ hk)
          rw [show i + 1 + m = i + (m + 1) from by omega] at h2
          exact h2
      · intro h k hk
        have h2 := h (k + 1) (Nat.succ_lt_succ hk)
        rw [show i + (k + 1) = i + 1 + k from by omega] at h2
        exact h2

theorem searchIdx_some_iff (f : Nat → Option α) (n : Nat) (a : α) :
    searchIdx f n = some a ↔
      ∃ k, k < n + 1 ∧ f k = some a ∧ ∀ j, j < k → f j = none := by
  unfold searchIdx
  rw [scanIdx_some_iff]
  simp

theorem searchIdx_none_iff (f : Nat → Option α) (n : Nat) :
    searchIdx f n = none ↔ ∀ k, k < n + 1 → f k = none := by
  unfold searchIdx
  rw [scanIdx_none_iff]
  simp

/-! ## Degree inference (linkedin.ts lines 244-275) -/

/-- ASCII letter (either case); under the regex `i` flag the class `[A-Z]`
matches exactly these characters. -/
def asciiLetter (c : Char) : Bool :=
  (65 ≤ c.toNat && c.toNat ≤ 90) || (97 ≤ c.toNat && c.toNat ≤ 122)

/-- Word character of JavaScript regular expressions (`[A-Za-z0-9_]`). -/
def wordChar (c : Char) : Bool :=
  asciiLetter c || (48 ≤ c.toNat && c.toNat ≤ 57) || c == '_'

/-- One of the digits matched by the class `[123]`. -/
def degreeDigit (c : Char) : Bool := c == '1' || c == '2' || c == '3'

/-- Case-insensitive test for the suffix alternation `(?:st|nd|rd)`:
any of the three suffixes after any of the three digits. -/
def ordinalSuffix (a b : Char) : Bool :=
  (a.toLower == 's' && b.toLower == 't') || (a.toLower == 'n' && b.toLower == 'd') ||
  (a.toLower == 'r' && b.toLower == 'd')

/-- Lookahead `(?=\s|$|[A-Z])` of the short-ordinal rule, under the `i`
flag: whitespace, end of input, or an ASCII letter of either case. -/
def shortOrdinalLookahead : List Char → Bool
  | [] => true
  | c :: _ => jsWhitespace c || asciiLetter c

/-- Matcher, at the start of a suffix, for the short-ordinal rule
`([123](?:st|nd|rd)\+?)(?=\s|$|[A-Z])` with the `i` flag; returns the
matched digit (which determines the result, since the source only
inspects the first character of the capture). -/
def shortOrdinalAt : List Char → Option Char
  | d :: a :: b :: rest =>
    if degreeDigit d && ordinalSuffix a b then
      match rest with
      | '+' :: rest2 => if shortOrdinalLookahead rest2 then some d else none
      | _ => if shortOrdinalLookahead rest then some d else none
    else none
  | _ => none

/-- Word-boundary test before position `i` of `l` (the `\b` before the
ordinal): position 0, or a non-word character at position `i - 1`. -/
def boundaryBefore (l : List Char) (i : Nat) : Bool :=
  i == 0 ||
    (match (l.drop (i - 1)).head? with
     | some c => !wordChar c
     | none => true)

/-- Case-insensitive literal matcher: `lit` (given in lower case) against
the head of `l`; returns the remainder on success. -/
def litMatch : List Char → List Char → Option (List Char)
  | [], l => some l
  | _ :: _, [] => none
  | c :: cs, d :: ds => if d.toLower == c then litMatch cs ds else none

/-- End-of-word test after a phrase (the trailing `\b`): end of input or
a non-word character. -/
def boundaryAfter : List Char → Bool
  | [] => true
  | c :: _ => !wordChar c

/-- Matcher at the start of a suffix for the phrase
`([123](?:st|nd|rd))\s+degree\b` (the leading `\b` is checked by the
caller); returns the lower-cased captured ordinal, exactly as the source
returns `ordinalMatch[1].toLowerCase()`. -/
def ordinalPhraseAt : List Char → Option String
  | d :: a :: b :: rest =>
    if degreeDigit d && ordinalSuffix a b then
      if (rest.takeWhile jsWhitespace).isEmpty then none
      else
        match litMatch "degree".data (rest.dropWhile jsWhitespace) with
        | some rest2 => if boundaryAfter rest2 then some (String.mk [d, a.toLower, b.toLower]) else none
        | none => none
    else none
  | _ => none

/-- Matcher at the start of a suffix for the phrase `([123])\s+degree\b`
(the leading `\b` is checked by the caller); returns the digit. -/
def digitPhraseAt : List Char → Option Char
  | d :: rest =>
    if degreeDigit d then
      if (rest.takeWhile jsWhitespace).isEmpty then none
      else
        match litMatch "degree".data (rest.dropWhile jsWhitespace) with
        | some rest2 => if boundaryAfter rest2 then some d else none
        | none => none
    else none
  | [] => none

/-- Position probe of the source's first regular expression. -/
def rule1Probe (l : List Char) (i : Nat) : Option Char := shortOrdinalAt (l.drop i)

/-- Position probe of the source's second regular expression, including
its leading word boundary. -/
def rule2Probe (l : List Char) (i : Nat) : Option String :=
  if boundaryBefore l i then ordinalPhraseAt (l.drop i) else none

/-- Position probe of the source's third regular expression, including
its leading word boundary. -/
def rule3Probe (l : List Char) (i : Nat) : Option Char :=
  if boundaryBefore l i then digitPhraseAt (l.drop i) else none

/-- Degree name determined by the matched digit: the source checks
`startsWith("1")` / `startsWith("2")` on the capture and otherwise
returns third. -/
def shortDegreeName (d : Char) : String :=
  if d == '1' then "1st" else if d == '2' then "2nd" else "3rd"

/-- Embedding of `inferDegree`: three regular-expression searches tried
in order (short ordinal with lookahead; explicit ordinal-degree phrase;
plain digit-degree phrase), first match of each searched left to right;
otherwise "unknown". -/
def inferDegree (raw : String) : String :=
  match searchIdx (rule1Probe raw.data) raw.data.length with
  | some d => shortDegreeName d
  | none =>
    match searchIdx (rule2Probe raw.data) raw.data.length with
    | some s => s
    | none =>
      match searchIdx (rule3Probe raw.data) raw.data.length with
      | some d => shortDegreeName d
      | none => "unknown"

/-! ## Claim-side degree inference (claim C5 wording) -/

/-- Lookahead as worded by claim C5: a word boundary or an upper-case
letter (not a lower-case one). -/
def claimLookahead : List Char → Bool
  | [] => true
  | c :: _ => !wordChar c || (65 ≤ c.toNat && c.toNat ≤ 90)

/-- Short ordinal as worded by claim C5: exactly 1st, 2nd or 3rd
(case-insensitive), optionally with a trailing +, followed by the
claim's lookahead. -/
def claimShortOrdinalAt : List Char → Option Char
  | d :: a :: b :: rest =>
    if (d == '1' && a.toLower == 's' && b.toLower == 't') ||
       (d == '2' && a.toLower == 'n' && b.toLower == 'd') ||
       (d == '3' && a.toLower == 'r' && b.toLower == 'd') then
      match rest with
      | '+' :: rest2 => if claimLookahead rest2 then some d else none
      | _ => if claimLookahead rest then some d else none
    else none
  | _ => none

/-- Degree inference as worded by claim C5: rule 1 with the claim's
uppercase-or-word-boundary lookahead, then the source's rules 2-4. -/
def inferDegreeClaim (raw : String) : String :=
  match searchIdx (fun i => claimShortOrdinalAt (raw.data.drop i)) raw.data.length with
  | some d => shortDegreeName d
  | none =>
    match searchIdx (rule2Probe raw.data) raw.data.length with
    | some s => s
    | none =>
      match searchIdx (rule3Probe raw.data) raw.data.length with
      | some d => shortDegreeName d
      | none => "unknown"

/-- C5 (counterexample): on "1sta" the code's rule 1 fires — the `i` flag
makes the lookahead class `[A-Z]` match the lower-case letter "a" — and
`inferDegree` returns "1st", whereas the claim's rules (no rule-1 match
before a lower-case letter, and no degree phrase) yield "unknown". -/
theorem C5_counterexample :
    inferDegree "1sta" = "1st" ∧ inferDegreeClaim "1sta" = "unknown" ∧ "1st" ≠ "unknown" :=
  ⟨by rfl, by rfl, by decide⟩

/-- C5 (amended): `inferDegree` applies exactly this precedence, first
match (lowest start position) wins within each rule: (1) a digit 1-3
followed by any of the suffixes st/nd/rd (case-insensitive, mismatched
pairs included), an optional trailing +, and a lookahead accepting
whitespace, end of input, or any ASCII letter of either case — the digit
maps 1 to first, 2 to second, 3 to third; (2) otherwise an explicit
"ordinal degree" phrase behind a word boundary, returning the lower-cased
ordinal; (3) otherwise a plain "digit degree" phrase behind a word
boundary; (4) otherwise unknown.  In particular a short ordinal followed
by a lower-case letter does match rule (1). -/
theorem C5_degree_rules (raw : String) :
    (∀ k d, rule1Probe raw.data k = some d →
      (∀ j, j < k → rule1Probe raw.data j = none) →
      inferDegree raw = shortDegreeName d)
    ∧ ((∀ k, rule1Probe raw.data k = none) →
        ∀ k s, rule2Probe raw.data k = some s →
          (∀ j, j < k → rule2Probe raw.data j = none) →
          inferDegree raw = s)
    ∧ ((∀ k, rule1Probe raw.data k = none) →
        (∀ k, rule2Probe raw.data k = none) →
        ∀ k d, rule3Probe raw.data k = some d →
          (∀ j, j < k → rule3Probe raw.data j = none) →
          inferDegree raw = shortDegreeName d)
    ∧ ((∀ k, rule1Probe raw.data k = none) →
        (∀ k, rule2Probe raw.data k = none) →
        (∀ k, rule3Probe raw.data k = none) →
        inferDegree raw = "unknown") := by
  have hlen : ∀ (k : Nat), raw.data.length < k → raw.data.drop k = [] := by
    intro k hk
    exact List.drop_eq_nil_of_le (Nat.le_of_lt hk)
  refine ⟨?_, ?_, ?_, ?_⟩
  · intro k d hk hmin
    have hk' : k < raw.data.length + 1 := by
      by_contra hge
      have : raw.data.drop k = [] := hlen k (by omega)
      rw [rule1Probe, this] at hk
      exact absurd hk (by simp [shortOrdinalAt])
    have : searchIdx (rule1Probe raw.data) raw.data.length = some d :=
      (searchIdx_some_iff _ _ _).mpr ⟨k, hk', hk, hmin⟩
    unfold inferDegree
    rw [this]
  · intro h1 k s hk hmin
    have h1n : searchIdx (rule1Probe raw.data) raw.data.length = none :=
      (searchIdx_none_iff _ _).mpr (fun j _ => h1 j)
    have hk' : k < raw.data.length + 1 := by
      by_contra hge
      have hd : raw.data.drop k = [] := hlen k (by omega)
      rw [rule2Probe, hd] at hk
      simp [ordinalPhraseAt] at hk
    have h2 : searchIdx (rule2Probe raw.data) raw.data.length = some s :=
      (searchIdx_some_iff _ _ _).mpr ⟨k, hk', hk, hmin⟩
    unfold inferDegree
    rw [h1n, h2]
  · intro h1 h2 k d hk hmin
    have h1n : searchIdx (rule1Probe raw.data) raw.data.length = none :=
      (searchIdx_none_iff _ _).mpr (fun j _ => h1 j)
    have h2n : searchIdx (rule2Probe raw.data) raw.data.length = none :=
      (searchIdx_none_iff _ _).mpr (fun j _ => h2 j)
    have hk' : k < raw.data.length + 1 := by
      by_contra hge
      have hd : raw.data.drop k = [] := hlen k (by omega)
      rw [rule3Probe, hd] at hk
      simp [digitPhraseAt] at hk
    have h3 : searchIdx (rule3Probe raw.data) raw.data.length = some d :=
      (searchIdx_some_iff _ _ _).mpr ⟨k, hk', hk, hmin⟩
    unfold inferDegree
    rw [h1n, h2n, h3]
  · intro h1 h2 h3
    have h1n : searchIdx (rule1Probe raw.data) raw.data.length = none :=
      (searchIdx_none_iff _ _).mpr (fun j _ => h1 j)
    have h2n : searchIdx (rule2Probe raw.data) raw.data.length = none :=
      (searchIdx_none_iff _ _).mpr (fun j _ => h2 j)
    have h3n : searchIdx (rule3Probe raw.data) raw.data.length = none :=
      (searchIdx_none_iff _ _).mpr (fun j _ => h3 j)
    unfold inferDegree
    rw [h1n, h2n, h3n]

/-- C5 (witness): the amended rules applied at a concrete input: in
"John Doe 1st" the short ordinal at position 9 (followed by end of input)
is the first rule-1 match, so the result is "1st". -/
theorem C5_degree_rules_witness : inferDegree "John Doe 1st" = "1st" :=
  (C5_degree_rules "John Doe 1st").1 9 '1' (by decide) (by decide)

/-! ## Card text parsing (linkedin.ts lines 277-316) -/

structure ParsedCardText where
  name : String
  headline : String
  location : String
deriving Repr, DecidableEq

/-- Splits on a separator character, keeping empty fragments; models
`String.prototype.split` with a single-character separator. -/
def splitOnChar (sep : Char) (l : List Char) : List (List Char) :=
  l.foldr
    (fun c acc =>
      if c == sep then [] :: acc
      else
        match acc with
        | s :: rest => (c :: s) :: rest
        | [] => [[c]])
    [[]]

/-- Collapses every whitespace run to a single space and trims both ends;
models `line.replace(whitespace-run, " ").trim()`. -/
def collapseWs (l : List Char) : List Char :=
  List.intercalate [' '] (splitRuns (fun c => !jsWhitespace c) l)

/-- Removes leading and trailing whitespace; models
`String.prototype.trim`. -/
def jsTrimChars (l : List Char) : List Char :=
  ((l.dropWhile jsWhitespace).reverse.dropWhile jsWhitespace).reverse

/-- The source's fixed list of UI-noise line starts. -/
def noiseStarts : List (List Char) :=
  ["past:", "current:", "mutual", "shared", "see all", "show all", "view",
   "message", "follow", "connect", "pending"].map String.data

/-- Embedding of the source's `isNoise`: the lower-cased line is exactly a
bullet, or starts with one of the noise strings. -/
def isNoise (l : List Char) : Bool :=
  let lower := l.map Char.toLower
  lower == ['•'] || noiseStarts.any (fun p => leadsWith p lower)

/-- Exact degree token of the card-parser regexes: 1st, 2nd, 3rd or 3rd+
(case-insensitive suffixes, properly paired). -/
def isDegreeToken : List Char → Bool
  | [d, a, b] =>
    (d == '1' && a.toLower == 's' && b.toLower == 't') ||
    (d == '2' && a.toLower == 'n' && b.toLower == 'd') ||
    (d == '3' && a.toLower == 'r' && b.toLower == 'd')
  | [d, a, b, p] =>
    d == '3' && a.toLower == 'r' && b.toLower == 'd' && p == '+'
  | _ => false

/-- End of input or a space: the suffix alternative of `(?:$| )`. -/
def endOrSpace : List Char → Bool
  | [] => true
  | c :: _ => c == ' '

/-- Optional-plus tail of the `3rd\+?` alternative: a greedy `+` (whose
empty alternative can never also succeed, since `+` is neither a space
nor the end) followed by end of input or a space. -/
def plusSep : List Char → Bool
  | [] => true
  | c :: rest2 => if c == '+' then endOrSpace rest2 else endOrSpace (c :: rest2)

/-- Matches, at the start of `l`, a proper degree token followed by end of
input or a space (the `(?:1st|2nd|3rd\+?)(?:$| )` part of the drop
regex). -/
def properOrdinalThenSep : List Char → Bool
  | d :: a :: b :: rest =>
    (((d == '1' && a.toLower == 's' && b.toLower == 't') ||
      (d == '2' && a.toLower == 'n' && b.toLower == 'd')) && endOrSpace rest)
    || ((d == '3' && a.toLower == 'r' && b.toLower == 'd') && plusSep rest)
  | _ => false

/-- Scans for a space followed by a degree token. -/
def hasDegTokenGo : List Char → Bool
  | [] => false
  | c :: cs => (c == ' ' && properOrdinalThenSep cs) || hasDegTokenGo cs

/-- Embedding of the test `/(?:^| )(?:1st|2nd|3rd\+?)(?:$| )/i.test(line)`
used to drop candidate lines: a proper degree token delimited on the left
by the line start or a space and on the right by the line end or a
space. -/
def hasDegToken (l : List Char) : Bool :=
  properOrdinalThenSep l || hasDegTokenGo l

/-- Whole-suffix test for the trailing-degree-marker strip on the name
line (`\s*[bullet middot]?\s*(?:1st|2nd|3rd\+?)$`). -/
def tailDegreeMatch (l : List Char) : Bool :=
  let l1 := l.dropWhile jsWhitespace
  let l2 :=
    match l1 with
    | c :: rest => if c == '•' || c == '·' then rest else l1
    | [] => l1
  isDegreeToken (l2.dropWhile jsWhitespace)

/-- Finds the leftmost position whose suffix fully matches the
trailing-degree pattern and returns the part before it. -/
def stripTailDegreeGo : List Char → Option (List Char)
  | [] => if tailDegreeMatch [] then some [] else none
  | c :: cs =>
    if tailDegreeMatch (c :: cs) then some []
    else (stripTailDegreeGo cs).map (fun r => c :: r)

/-- Removes a trailing degree marker (with optional separating bullet or
middle dot) from the name line, leftmost match first, as the source's
`replace` with an end-anchored pattern does. -/
def stripTailDegree (l : List Char) : List Char :=
  (stripTailDegreeGo l).getD l

/-- Strips a leading bullet and the whitespace after it
(`replace(/^bullet\s*/, "")`). -/
def stripLeadBullet (l : List Char) : List Char :=
  match l with
  | c :: rest => if c == '•' then rest.dropWhile jsWhitespace else l
  | [] => l

/-- The collapsed, trimmed, non-empty lines of a raw card text. -/
def cardLines (raw : String) : List (List Char) :=
  ((splitOnChar '\n' raw.data).map collapseWs).filter (fun l => !l.isEmpty)

/-- Name extraction from the first line: strip a leading bullet, strip a
trailing degree marker, trim. -/
def cardName (first : List Char) : String :=
  String.mk (jsTrimChars (stripTailDegree (stripLeadBullet first)))

/-- Embedding of `parseSearchCardText`: split on line breaks, collapse
whitespace, drop empty lines; the first line yields the name; the
remaining lines are filtered (drop bullet-led lines, lines passing the
degree-token test, and noise lines); the first two survivors are headline
and location. -/
def parseSearchCardText (raw : String) : ParsedCardText :=
  match cardLines raw with
  | [] => { name := "", headline := "", location := "" }
  | first :: rest =>
    let candidates := rest.filter (fun line =>
      !leadsWith ['•'] line && !hasDegToken line && !isNoise line)
    { name := cardName first
      headline := String.mk (candidates.head?.getD [])
      location := String.mk ((candidates.drop 1).head?.getD []) }

/-- Card parsing as worded by claim C6: identical, except that the degree
rule drops only lines that are themselves exactly a degree marker. -/
def parseSearchCardTextClaim (raw : String) : ParsedCardText :=
  match cardLines raw with
  | [] => { name := "", headline := "", location := "" }
  | first :: rest =>
    let candidates := rest.filter (fun line =>
      !leadsWith ['•'] line && !isDegreeToken line && !isNoise line)
    { name := cardName first
      headline := String.mk (candidates.head?.getD [])
      location := String.mk ((candidates.drop 1).head?.getD []) }

/-- C6 (counterexample): in the card text "Jane Doe / Veteran of 2nd
Battalion / Austin", the middle line merely contains the standalone token
"2nd" amid other words; the code drops it (headline becomes "Austin"),
while the claim says such a line is kept (headline "Veteran of 2nd
Battalion", location "Austin"). -/
theorem C6_counterexample :
    parseSearchCardText "Jane Doe\nVeteran of 2nd Battalion\nAustin"
      = { name := "Jane Doe", headline := "Austin", location := "" }
    ∧ parseSearchCardTextClaim "Jane Doe\nVeteran of 2nd Battalion\nAustin"
      = { name := "Jane Doe", headline := "Veteran of 2nd Battalion", location := "Austin" } :=
  ⟨by decide, by decide⟩

/-! ## Claim C6: the degree-token drop rule, relationally -/

theorem properOrdinalThenSep_iff (l : List Char) :
    properOrdinalThenSep l = true ↔
      ∃ tok post, l = tok ++ post ∧ isDegreeToken tok = true ∧ endOrSpace post = true := by
  constructor
  · intro h
    rcases l with _ | ⟨d, _ | ⟨a, _ | ⟨b, rest⟩⟩⟩
    · exact absurd h (by simp [properOrdinalThenSep])
    · exact absurd h (by simp [properOrdinalThenSep])
    · exact absurd h (by simp [properOrdinalThenSep])
    · simp only [properOrdinalThenSep] at h
      rcases Bool.or_eq_true_iff.mp h with h12 | h3
      · obtain ⟨hpair, hsep⟩ := Bool.and_eq_true_iff.mp h12
        refine ⟨[d, a, b], rest, rfl, ?_, hsep⟩
        simp only [isDegreeToken]
        rcases Bool.or_eq_true_iff.mp hpair with hA | hB
        · simp [hA]
        · simp [hB]
      · obtain ⟨hpair, hplus⟩ := Bool.and_eq_true_iff.mp h3
        rcases rest with _ | ⟨r, rs⟩
        · exact ⟨[d, a, b], [], rfl, by simp [isDegreeToken, hpair], rfl⟩
        · by_cases hr : r = '+'
          · subst hr
            rw [show plusSep ('+' :: rs) = endOrSpace rs from by simp [plusSep]] at hplus
            refine ⟨[d, a, b, '+'], rs, rfl, ?_, hplus⟩
            simp [isDegreeToken, hpair]
          · rw [show plusSep (r :: rs) = endOrSpace (r :: rs) from by simp [plusSep, hr]] at hplus
            exact ⟨[d, a, b], r :: rs, rfl, by simp [isDegreeToken, hpair], hplus⟩
  · rintro ⟨tok, post, heq, htok, hsep⟩
    rcases tok with _ | ⟨x, _ | ⟨y, _ | ⟨z, _ | ⟨w, tl⟩⟩⟩⟩
    · simp [isDegreeToken] at htok
    · simp [isDegreeToken] at htok
    · simp [isDegreeToken] at htok
    · -- three-character token
      subst heq
      simp only [isDegreeToken] at htok
      have hplus : plusSep post = true := by
        rcases post with _ | ⟨c, rs⟩
        · simp [plusSep]
        · have hc : c = ' ' := by simpa [endOrSpace] using hsep
          subst hc
          simp [plusSep, endOrSpace]
      rcases Bool.or_eq_true_iff.mp htok with h12 | h3
      · show properOrdinalThenSep (x :: y :: z :: post) = true
        simp [properOrdinalThenSep, h12, hsep]
      · show properOrdinalThenSep (x :: y :: z :: post) = true
        simp [properOrdinalThenSep, h3, hplus]
    · rcases tl with _ | ⟨v, tl2⟩
      · -- four-character token
        subst heq
        simp only [isDegreeToken, Bool.and_eq_true, beq_iff_eq] at htok
        obtain ⟨⟨⟨h3, hrr⟩, hdd⟩, hw⟩ := htok
        subst hw
        show properOrdinalThenSep (x :: y :: z :: '+' :: post) = true
        simp [properOrdinalThenSep, h3, hrr, hdd, plusSep, hsep]
      · simp [isDegreeToken] at htok

theorem hasDegTokenGo_iff (l : List Char) :
    hasDegTokenGo l = true ↔
      ∃ pre tok post, l = pre ++ [' '] ++ tok ++ post ∧ isDegreeToken tok = true ∧
        endOrSpace post = true := by
  induction l with
  | nil =>
    simp only [hasDegTokenGo, Bool.false_eq_true, false_iff]
    rintro ⟨pre, tok, post, heq, _, _⟩
    exact absurd heq.symm (by simp)
  | cons c cs ih =>
    simp only [hasDegTokenGo, Bool.or_eq_true, Bool.and_eq_true, beq_iff_eq]
    constructor
    · rintro (⟨hc, hp⟩ | hgo)
      · subst hc
        obtain ⟨tok, post, heq, htok, hsep⟩ := (properOrdinalThenSep_iff cs).mp hp
        exact ⟨[], tok, post, by simp [heq], htok, hsep⟩
      · obtain ⟨pre, tok, post, heq, htok, hsep⟩ := ih.mp hgo
        exact ⟨c :: pre, tok, post, by simp [heq], htok, hsep⟩
    · rintro ⟨pre, tok, post, heq, htok, hsep⟩
      rcases pre with _ | ⟨p, ps⟩
      · simp only [List.nil_append, List.cons_append, List.cons.injEq] at heq
        obtain ⟨hc, hcs⟩ := heq
        exact Or.inl ⟨hc, (properOrdinalThenSep_iff cs).mpr ⟨tok, post, hcs, htok, hsep⟩⟩
      · simp only [List.cons_append, List.cons.injEq] at heq
        obtain ⟨_, hcs⟩ := heq
        exact Or.inr (ih.mpr ⟨ps, tok, post, hcs, htok, hsep⟩)

/-- The amended degree-line drop rule, as the claim words it: the line
contains a proper degree token, delimited on the left by the line start
or a space and on the right by the line end or a space. -/
def specContainsDegreeMarker (line : List Char) : Prop :=
  ∃ pre tok post, line = pre ++ tok ++ post ∧ isDegreeToken tok = true ∧
    (pre = [] ∨ ∃ pre2, pre = pre2 ++ [' ']) ∧ endOrSpace post = true

theorem hasDegToken_iff (l : List Char) :
    hasDegToken l = true ↔ specContainsDegreeMarker l := by
  unfold hasDegToken specContainsDegreeMarker
  rw [Bool.or_eq_true]
  constructor
  · rintro (hp | hgo)
    · obtain ⟨tok, post, heq, htok, hsep⟩ := (properOrdinalThenSep_iff l).mp hp
      exact ⟨[], tok, post, by simpa using heq, htok, Or.inl rfl, hsep⟩
    · obtain ⟨pre2, tok, post, heq, htok, hsep⟩ := (hasDegTokenGo_iff l).mp hgo
      exact ⟨pre2 ++ [' '], tok, post, by simpa using heq, htok, Or.inr ⟨pre2, rfl⟩, hsep⟩
  · rintro ⟨pre, tok, post, heq, htok, hpre, hsep⟩
    rcases hpre with rfl | ⟨pre2, rfl⟩
    · exact Or.inl ((properOrdinalThenSep_iff l).mpr ⟨tok, post, by simpa using heq, htok, hsep⟩)
    · exact Or.inr ((hasDegTokenGo_iff l).mpr ⟨pre2, tok, post, by simpa using heq, htok, hsep⟩)

instance specContainsDegreeMarkerDec : DecidablePred specContainsDegreeMarker :=
  fun l => decidable_of_iff _ (hasDegToken_iff l)

/-- Card parsing as worded by the amended claim C6: the degree rule drops
any line containing a standalone degree token (start-or-space before,
end-or-space after), not only lines that are exactly a degree marker. -/
def specParseCard (raw : String) : ParsedCardText :=
  match cardLines raw with
  | [] => { name := "", headline := "", location := "" }
  | first :: rest =>
    let candidates := rest.filter (fun line =>
      !leadsWith ['•'] line && !decide (specContainsDegreeMarker line) && !isNoise line)
    { name := cardName first
      headline := String.mk (candidates.head?.getD [])
      location := String.mk ((candidates.drop 1).head?.getD []) }

/-- C6 (amended): `parseSearchCardText` is total and computes exactly the
claim's algorithm — split on line breaks, collapse whitespace, drop empty
lines, name from the first line with leading bullet and trailing degree
marker stripped, remaining lines filtered by the bullet rule, the
standalone-degree-token rule (a line containing a degree token delimited
by start-or-space and end-or-space is dropped, not only lines that are
exactly a degree marker), and the noise-prefix rule — with empty input
yielding empty fields. -/
theorem C6_card_text (raw : String) :
    parseSearchCardText raw = specParseCard raw
    ∧ parseSearchCardText "" = { name := "", headline := "", location := "" } := by
  refine ⟨?_, by decide⟩
  unfold parseSearchCardText specParseCard
  cases h : cardLines raw with
  | nil => rfl
  | cons first rest =>
    have hfil : ∀ line ∈ rest,
        (!leadsWith ['•'] line && !hasDegToken line && !isNoise line)
          = (!leadsWith ['•'] line && !decide (specContainsDegreeMarker line) && !isNoise line) := by
      intro line _
      have : hasDegToken line = decide (specContainsDegreeMarker line) := by
        by_cases hm : specContainsDegreeMarker line
        · rw [(hasDegToken_iff line).mpr hm, decide_eq_true hm]
        · have hb : hasDegToken line = false := by
            cases hb2 : hasDegToken line
            · rfl
            · exact absurd ((hasDegToken_iff line).mp hb2) hm
          rw [hb, decide_eq_false hm]
      rw [this]
    dsimp only
    rw [List.filter_congr hfil]

/-! ## URL model

A model of the WHATWG URL parser (`new URL(...)`) covering the fragment
the repository exercises: absolute http/https (and other special-scheme)
URLs, protocol-relative and path-relative references against an https
base, opaque-path non-special URLs such as `urn:...`, percent-encoding of
path characters, dot-segment normalization, default-port elision, and
host validation with ASCII lower-casing.  Out of the modelled fragment
(documented here rather than silently wrong): IDNA/punycode hosts,
percent-encoded or bracketed (IPv6) hosts, and `file:` URLs — these are
treated as parse failures, which the repository observes identically
as errors. -/

/-- Parsed URL record: the fields of the WHATWG URL the repository
reads (`hostname`, `pathname`) plus what serialization needs. -/
structure UrlParts where
  scheme : List Char
  hasAuthority : Bool
  host : List Char
  port : List Char
  path : List Char
  search : List Char
  hash : List Char
deriving Repr, DecidableEq

/-- C0 control or space: stripped from both ends of the input. -/
def c0OrSpace (c : Char) : Bool := c.toNat ≤ 0x20

/-- Tab, line feed or carriage return: removed everywhere in the input. -/
def tabOrNl (c : Char) : Bool := c.toNat == 9 || c.toNat == 10 || c.toNat == 13

/-- Input preprocessing of the URL parser. -/
def preprocessUrl (s : String) : List Char :=
  (((s.data.filter (fun c => !tabOrNl c)).dropWhile c0OrSpace).reverse.dropWhile
    c0OrSpace).reverse

/-- Scheme character after the first: letter, digit, plus, minus, dot. -/
def schemeChar (c : Char) : Bool :=
  asciiLetter c || (48 ≤ c.toNat && c.toNat ≤ 57) || c == '+' || c == '-' || c == '.'

/-- Splits a leading `scheme:` off the input, lower-casing the scheme. -/
def schemeSplit (l : List Char) : Option (List Char × List Char) :=
  match l with
  | c :: rest =>
    if asciiLetter c then
      match rest.dropWhile schemeChar with
      | ':' :: r2 => some ((c :: rest.takeWhile schemeChar).map Char.toLower, r2)
      | _ => none
    else none
  | [] => none

/-- The special schemes of the modelled fragment. -/
def specialScheme (s : List Char) : Bool :=
  s == "http".data || s == "https".data || s == "ws".data || s == "wss".data ||
  s == "ftp".data

/-- Default port of a special scheme, as decimal digits. -/
def defaultPort (s : List Char) : List Char :=
  if s == "http".data || s == "ws".data then "80".data
  else if s == "https".data || s == "wss".data then "443".data
  else if s == "ftp".data then "21".data
  else []

/-- Slash or backslash (both act as separators in special URLs). -/
def isSlash (c : Char) : Bool := c == '/' || c == '\\'

/-- Forbidden host character (including the percent sign and non-ASCII,
which the modelled fragment rejects rather than decoding). -/
def forbiddenHostChar (c : Char) : Bool :=
  c.toNat ≤ 0x20 || c == '#' || c == '/' || c == ':' || c == '<' || c == '>' ||
  c == '?' || c == '@' || c == '[' || c == '\\' || c == ']' || c == '^' ||
  c == '|' || c == '%' || c.toNat ≥ 0x7f

/-- The part of the authority after the last `@` (userinfo stripped). -/
def afterLastAt (l : List Char) : List Char :=
  (l.reverse.takeWhile (fun c => !(c == '@'))).reverse

/-- Parses `host[:port]` of a special-scheme authority: non-empty
validated lower-cased host, digits-only port of at most 65535 with the
scheme's default elided. -/
def parseHostPort (scheme auth : List Char) : Option (List Char × List Char) :=
  let hp := afterLastAt auth
  let host := hp.takeWhile (fun c => !(c == ':'))
  let portRaw := hp.dropWhile (fun c => !(c == ':'))
  if host.isEmpty then none
  else if host.any forbiddenHostChar then none
  else
    let lhost := host.map Char.toLower
    match portRaw with
    | [] => some (lhost, [])
    | _ :: p =>
      if !p.all (fun c => 48 ≤ c.toNat && c.toNat ≤ 57) then none
      else if p.isEmpty then some (lhost, [])
      else
        let n := p.foldl (fun acc c => acc * 10 + (c.toNat - 48)) 0
        if 65535 < n then none
        else if (Nat.repr n).data == defaultPort scheme then some (lhost, [])
        else some (lhost, (Nat.repr n).data)

/-- Uppercase hexadecimal digit of a value below 16. -/
def hexDigit (n : Nat) : Char :=
  if n < 10 then Char.ofNat (48 + n) else Char.ofNat (55 + n)

/-- Percent-encoding of one byte. -/
def percentByte (b : Nat) : List Char := ['%', hexDigit (b / 16), hexDigit (b % 16)]

/-- Member of the path percent-encode set: C0 controls, space, quote,
angle brackets, backtick, question mark, hash, curly braces, DEL and
everything non-ASCII. -/
def pathEncodeSet (c : Char) : Bool :=
  c.toNat ≤ 0x1f || c.toNat ≥ 0x7f || c.toNat == 0x20 || c.toNat == 0x22 ||
  c.toNat == 0x3c || c.toNat == 0x3e || c.toNat == 0x60 || c.toNat == 0x3f ||
  c.toNat == 0x23 || c.toNat == 0x7b || c.toNat == 0x7d

/-- Percent-encodes one path character (UTF-8, uppercase hex). -/
def pathEncodeChar (c : Char) : List Char :=
  if pathEncodeSet c then
    (String.utf8EncodeChar c).foldr (fun b acc => percentByte b.toNat ++ acc) []
  else [c]

/-- Percent-encodes a path segment character by character. -/
def encodeSeg (s : List Char) : List Char := s.foldr (fun c acc => pathEncodeChar c ++ acc) []

/-- One step of the keep-empties splitter. -/
def splitStep (p : Char → Bool) (c : Char) (acc : List (List Char)) : List (List Char) :=
  if p c then [] :: acc
  else
    match acc with
    | s :: rest => (c :: s) :: rest
    | [] => [[c]]

/-- Splits on a character class, keeping empty fragments. -/
def splitOnPred (p : Char → Bool) (l : List Char) : List (List Char) :=
  l.foldr (splitStep p) [[]]

/-- Single-dot path segment, percent-encoded forms included. -/
def isDotSeg (s : List Char) : Bool :=
  s == ['.'] || s.map Char.toLower == "%2e".data

/-- Double-dot path segment, percent-encoded forms included. -/
def isDotDotSeg (s : List Char) : Bool :=
  let t := s.map Char.toLower
  s == "..".data || t == ".%2e".data || t == "%2e.".data || t == "%2e%2e".data

/-- Dot-segment normalization over the segment list, with the WHATWG
rule that a final dot segment appends an empty segment. -/
def normSegs (acc : List (List Char)) : List (List Char) → List (List Char)
  | [] => acc
  | [s] =>
    if isDotDotSeg s then acc.dropLast ++ [[]]
    else if isDotSeg s then acc ++ [[]]
    else acc ++ [s]
  | s :: rest =>
    if isDotDotSeg s then normSegs acc.dropLast rest
    else if isDotSeg s then normSegs acc rest
    else normSegs (acc ++ [s]) rest

/-- Serializes the path of a special-scheme URL from its raw character
range (empty, or starting with a slash): split on slashes keeping empty
segments, percent-encode, normalize dot segments, join. -/
def serializeSpecialPath (rawPath : List Char) : List Char :=
  let pieces :=
    match rawPath with
    | [] => [[]]
    | _ :: rest => splitOnPred isSlash rest
  '/' :: List.intercalate ['/'] (normSegs [] (pieces.map encodeSeg))

/-- Splits the `?query#fragment` tail (which starts with `?`, `#`, or is
empty) into search and hash, keeping the markers. -/
def splitQueryFrag : List Char → List Char × List Char
  | '?' :: r => ('?' :: r.takeWhile (fun c => !(c == '#')), r.dropWhile (fun c => !(c == '#')))
  | '#' :: r => ([], '#' :: r)
  | _ => ([], [])

/-- Parses what follows `scheme:` of a special-scheme URL: slurp all
leading slashes, authority up to a slash / `?` / `#`, then path, query
and fragment. -/
def parseSpecialRest (scheme rest : List Char) : Option UrlParts :=
  let rest2 := rest.dropWhile isSlash
  let auth := rest2.takeWhile (fun c => !(isSlash c || c == '?' || c == '#'))
  let tail := rest2.dropWhile (fun c => !(isSlash c || c == '?' || c == '#'))
  match parseHostPort scheme auth with
  | none => none
  | some (host, port) =>
    let rawPath := tail.takeWhile (fun c => !(c == '?' || c == '#'))
    let qf := tail.dropWhile (fun c => !(c == '?' || c == '#'))
    some
      { scheme := scheme, hasAuthority := true, host := host, port := port
        path := serializeSpecialPath rawPath
        search := (splitQueryFrag qf).1, hash := (splitQueryFrag qf).2 }

/-- Opaque-path percent-encode set (C0 controls, DEL and non-ASCII). -/
def opaqueEncodeChar (c : Char) : List Char :=
  if c.toNat ≤ 0x1f || c.toNat ≥ 0x7f then
    (String.utf8EncodeChar c).foldr (fun b acc => percentByte b.toNat ++ acc) []
  else [c]

/-- Parses an absolute URL (after preprocessing). -/
def parseAbsolute (l : List Char) : Option UrlParts :=
  match schemeSplit l with
  | none => none
  | some (scheme, rest) =>
    if specialScheme scheme then parseSpecialRest scheme rest
    else
      match rest with
      | '/' :: '/' :: rest2 =>
        let auth := rest2.takeWhile (fun c => !(c == '/' || c == '?' || c == '#'))
        let tail := rest2.dropWhile (fun c => !(c == '/' || c == '?' || c == '#'))
        if auth.any forbiddenHostChar then none
        else
          let rawPath := tail.takeWhile (fun c => !(c == '?' || c == '#'))
          let qf := tail.dropWhile (fun c => !(c == '?' || c == '#'))
          some
            { scheme := scheme, hasAuthority := true, host := auth, port := []
              path := '/' :: List.intercalate ['/']
                  (normSegs []
                    ((match rawPath with
                      | [] => ([] : List (List Char))
                      | _ :: r => splitOnPred (fun c => c == '/') r).map encodeSeg))
              search := (splitQueryFrag qf).1, hash := (splitQueryFrag qf).2 }
      | _ =>
        let rawPath := rest.takeWhile (fun c => !(c == '?' || c == '#'))
        let qf := rest.dropWhile (fun c => !(c == '?' || c == '#'))
        some
          { scheme := scheme, hasAuthority := false, host := [], port := []
            path := rawPath.foldr (fun c acc => opaqueEncodeChar c ++ acc) []
            search := (splitQueryFrag qf).1, hash := (splitQueryFrag qf).2 }

/-- Serializes a parsed URL back to a string, as `URL#toString`. -/
def urlToString (u : UrlParts) : String :=
  String.mk
    (u.scheme ++
      (if u.hasAuthority then
        "://".data ++ u.host ++ (if u.port.isEmpty then [] else ':' :: u.port)
      else [':']) ++
      u.path ++ u.search ++ u.hash)

/-- Resolves a scheme-less (or degenerate same-scheme) reference against
a special-scheme base. -/
def parseRelative (l : List Char) (base : UrlParts) : Option UrlParts :=
  match l with
  | [] => some { base with hash := [] }
  | '?' :: r =>
    some { base with search := '?' :: r.takeWhile (fun c => !(c == '#'))
                     hash := (splitQueryFrag (r.dropWhile (fun c => !(c == '#')))).2 }
  | '#' :: r => some { base with hash := '#' :: r }
  | c :: cs =>
    if isSlash c then
      if leadsWith "//".data (c :: cs) ∨ leadsWith "\\\\".data (c :: cs) then
        parseSpecialRest base.scheme (c :: cs)
      else
        let rawPath := (c :: cs).takeWhile (fun x => !(x == '?' || x == '#'))
        let qf := (c :: cs).dropWhile (fun x => !(x == '?' || x == '#'))
        some
          { base with path := serializeSpecialPath rawPath
                      search := (splitQueryFrag qf).1, hash := (splitQueryFrag qf).2 }
    else
      let rawPath := (c :: cs).takeWhile (fun x => !(x == '?' || x == '#'))
      let qf := (c :: cs).dropWhile (fun x => !(x == '?' || x == '#'))
      let baseDir := (base.path.reverse.dropWhile (fun x => !(x == '/'))).reverse
      some
        { base with path := serializeSpecialPath (baseDir ++ rawPath)
                    search := (splitQueryFrag qf).1, hash := (splitQueryFrag qf).2 }

/-- Parses a URL string against an optional special-scheme base; models
`new URL(value, base)` on the documented fragment. -/
def parseUrl (value : String) (base : Option UrlParts) : Option UrlParts :=
  let l := preprocessUrl value
  match base with
  | none => parseAbsolute l
  | some b =>
    match schemeSplit l with
    | some (scheme, rest) =>
      if scheme == b.scheme && specialScheme scheme && !leadsWith "//".data rest then
        parseRelative rest b
      else parseAbsolute l
    | none => parseRelative l b

/-- The base URL the source passes to `new URL(value, base)`. -/
def linkedinBase : UrlParts :=
  { scheme := "https".data, hasAuthority := true, host := "www.linkedin.com".data
    port := [], path := "/".data, search := [], hash := [] }

/-! ## URL helpers of linkedin.ts (lines 153-238 and 1717-1771) -/

/-- Suffix test `endsWith`. -/
def endsWithChars (pat l : List Char) : Bool := leadsWith pat.reverse l.reverse

/-- ASCII digit (the regex class `\d`). -/
def isDigitChar (c : Char) : Bool := 48 ≤ c.toNat && c.toNat ≤ 57

/-- Embedding of `assertLinkedInUrl` (linkedin.ts lines 153-166): parse
failure raises an invalid-URL error; a hostname that is neither exactly
`linkedin.com` nor suffixed by `.linkedin.com` raises the off-site
error; otherwise the guard returns. -/
def assertLinkedInUrl (url : String) : Except String Unit :=
  match parseUrl url none with
  | none => Except.error ("Invalid URL: " ++ url)
  | some u =>
    if !(u.host == "linkedin.com".data) && !endsWithChars ".linkedin.com".data u.host then
      Except.error ("URL is not a LinkedIn URL: " ++ url)
    else Except.ok ()

/-- Embedding of `normalizeProfileUrl`: empty in, empty out; parse with
the LinkedIn base, clear query and fragment, serialize; parse failure
yields the empty string. -/
def normalizeProfileUrl (value : String) : String :=
  if value = "" then ""
  else
    match parseUrl value (some linkedinBase) with
    | none => ""
    | some u => urlToString { u with search := [], hash := [] }

/-- The capture of `^\/in\/([^/?#]+)` on a pathname (case-insensitive
`/in/`, then one or more characters other than slash, question mark and
hash). -/
def inVanity (path : List Char) : Option (List Char) :=
  match path with
  | '/' :: a :: b :: '/' :: rest =>
    if a.toLower == 'i' && b.toLower == 'n' then
      let seg := rest.takeWhile (fun c => !(c == '/' || c == '?' || c == '#'))
      if seg.isEmpty then none else some seg
    else none
  | _ => none

/-- Embedding of `toCanonicalProfileUrl`: empty in, empty out; on a
`/in/<vanity>` pathname produce the canonical profile form, otherwise
fall back to `normalizeProfileUrl`; parse failure yields the empty
string. -/
def toCanonicalProfileUrl (value : String) : String :=
  if value = "" then ""
  else
    match parseUrl value (some linkedinBase) with
    | none => ""
    | some u =>
      match inVanity u.path with
      | some v => "https://www.linkedin.com/in/" ++ String.mk v ++ "/"
      | none => normalizeProfileUrl value

/-- Anchored tail test for `linkedin\.com\/in\/[^/]+\/?$` at the start
of `l`. -/
def profileTailTest (l : List Char) : Bool :=
  match litMatch "linkedin.com/in/".data l with
  | some rest =>
    let seg := rest.takeWhile (fun c => !(c == '/'))
    if seg.isEmpty then false
    else
      let after := rest.dropWhile (fun c => !(c == '/'))
      after == [] || after == ['/']
  | none => false

/-- Tries a test on every suffix of the list (the unanchored part of a
regular-expression test). -/
def anySuffix (test : List Char → Bool) : List Char → Bool
  | [] => test []
  | c :: cs => test (c :: cs) || anySuffix test cs

/-- The test `/linkedin\.com\/in\/[^/]+\/?$/i.test(s)`. -/
def profileUrlTest (l : List Char) : Bool := anySuffix profileTailTest l

/-- Embedding of `buildProfileUrl` (linkedin.ts lines 1717-1736). -/
def buildProfileUrl (vanityName : String) : Except String String :=
  let input := jsTrimChars vanityName.data
  if input.isEmpty then Except.error "Profile id cannot be empty."
  else if leadsWith "http://".data input || leadsWith "https://".data input then
    let canonical := toCanonicalProfileUrl (String.mk input)
    if !profileUrlTest canonical.data then
      Except.error "Profile URL must include /in/<vanity-name>."
    else Except.ok canonical
  else
    let clean :=
      ((input.dropWhile (fun c => c == '/')).reverse.dropWhile (fun c => c == '/')).reverse
    if clean.isEmpty then Except.error "Profile id cannot be empty."
    else Except.ok ("https://www.linkedin.com/in/" ++ String.mk clean ++ "/")

/-- Matcher at one position for `activity[:\-](\d+)` (case-insensitive):
the word activity, a colon or hyphen, then a maximal non-empty digit
run, which is returned. -/
def activityTokenAt (l : List Char) : Option (List Char) :=
  match litMatch "activity".data l with
  | some rest =>
    match rest with
    | c :: rest2 =>
      if c == ':' || c == '-' then
        let d := rest2.takeWhile isDigitChar
        if d.isEmpty then none else some d
      else none
    | [] => none
  | none => none

/-- Matcher at one position for `activity[- ](\d+)` (case-insensitive). -/
def activitySpaceAt (l : List Char) : Option (List Char) :=
  match litMatch "activity".data l with
  | some rest =>
    match rest with
    | c :: rest2 =>
      if c == '-' || c == ' ' then
        let d := rest2.takeWhile isDigitChar
        if d.isEmpty then none else some d
      else none
    | [] => none
  | none => none

/-- Matcher at one position for `(\d{10,})`: a maximal digit run of
length at least ten. -/
def digitRunAt (l : List Char) : Option (List Char) :=
  let d := l.takeWhile isDigitChar
  if 10 ≤ d.length then some d else none

/-- Matcher at one position for `urn:li:activity:(\d+)`
(case-insensitive). -/
def urnActivityAt (l : List Char) : Option (List Char) :=
  match litMatch "urn:li:activity:".data l with
  | some rest =>
    let d := rest.takeWhile isDigitChar
    if d.isEmpty then none else some d
  | none => none

/-- The activity-format error message of `buildPostUrl`. -/
def activityFormatMsg : String :=
  "Activity id must be numeric or include urn:li:activity:<numeric-id>."

/-- Embedding of `buildPostUrl` (linkedin.ts lines 1738-1771): bare
numeric ids pass through; http/https inputs are URL-parsed (an
unparsable one throws the URL TypeError, not the activity-format error)
and the id is recovered from the pathname via `activity[:\-]digits`,
then `activity[- ]digits`, then the first run of ten or more digits;
other inputs are searched for `urn:li:activity:digits`; a non-numeric
result is the activity-format error. -/
def buildPostUrl (activityId : String) : Except String String :=
  let input := jsTrimChars activityId.data
  if input.isEmpty then Except.error "Activity id cannot be empty."
  else
    let idOpt : Option (List Char) :=
      if leadsWith "http://".data input || leadsWith "https://".data input then
        match parseUrl (String.mk input) none with
        | none => none
        | some u =>
          some
            (match searchIdx (fun i => activityTokenAt (u.path.drop i)) u.path.length with
             | some d => d
             | none =>
               match searchIdx (fun i => activitySpaceAt (u.path.drop i)) u.path.length with
               | some d => d
               | none =>
                 match searchIdx (fun i => digitRunAt (u.path.drop i)) u.path.length with
                 | some d => d
                 | none => input)
      else
        some
          (match searchIdx (fun i => urnActivityAt (input.drop i)) input.length with
           | some d => d
           | none => input)
    match idOpt with
    | none => Except.error ("Invalid URL: " ++ String.mk input)
    | some id =>
      if !id.isEmpty && id.all isDigitChar then
        Except.ok ("https://www.linkedin.com/feed/update/urn:li:activity:" ++ String.mk id ++ "/")
      else Except.error activityFormatMsg

/-! ## Claims C9 and C4: the same-site guard and post canonicalization -/

theorem toLower_eq_self_of_not_upper (c : Char) (h : ¬(65 ≤ c.toNat ∧ c.toNat ≤ 90)) :
    c.toLower = c := by
  unfold Char.toLower
  rw [if_neg (by omega)]

theorem leadsWith_iff (pat : List Char) :
    ∀ l, leadsWith pat l = true ↔ ∃ rest, l = pat ++ rest := by
  induction pat with
  | nil => intro l; simp [leadsWith]
  | cons c cs ih =>
    intro l
    cases l with
    | nil =>
      simp only [leadsWith, Bool.false_eq_true, false_iff]
      rintro ⟨rest, h⟩
      exact absurd h (by simp)
    | cons d ds =>
      simp only [leadsWith, Bool.and_eq_true, beq_iff_eq, ih ds]
      constructor
      · rintro ⟨rfl, rest, rfl⟩
        exact ⟨rest, rfl⟩
      · rintro ⟨rest, h⟩
        simp only [List.cons_append, List.cons.injEq] at h
        exact ⟨h.1.symm, rest, h.2⟩

theorem endsWith_iff (pat l : List Char) :
    endsWithChars pat l = true ↔ ∃ pre, l = pre ++ pat := by
  unfold endsWithChars
  rw [leadsWith_iff]
  constructor
  · rintro ⟨rest, h⟩
    refine ⟨rest.reverse, ?_⟩
    have := congrArg List.reverse h
    simpa using this
  · rintro ⟨pre, rfl⟩
    exact ⟨pre.reverse, by simp⟩

/-- C9: the same-site guard returns without error exactly when the input
parses as a URL whose host is the apex domain `linkedin.com` or a
dot-separated subdomain of it; it fails on every other input — unparsable
URLs included — and in particular on `evil-linkedin.com`, whose host
merely ends with the string `linkedin.com`. -/
theorem C9_same_site_guard (url : String) :
    ((assertLinkedInUrl url = Except.ok ()) ↔
      (∃ u, parseUrl url none = some u ∧
        (u.host = "linkedin.com".data ∨ ∃ sub, u.host = sub ++ ".linkedin.com".data)))
    ∧ assertLinkedInUrl "https://evil-linkedin.com/x"
        = Except.error "URL is not a LinkedIn URL: https://evil-linkedin.com/x"
    ∧ assertLinkedInUrl "notaurl" = Except.error "Invalid URL: notaurl"
    ∧ assertLinkedInUrl "https://www.linkedin.com/in/jane/" = Except.ok ()
    ∧ assertLinkedInUrl "https://linkedin.com/feed/" = Except.ok () := by
  refine ⟨?_, by rfl, by rfl, by rfl, by rfl⟩
  unfold assertLinkedInUrl
  cases hp : parseUrl url none with
  | none =>
    simp only [reduceCtorEq, false_iff]
    rintro ⟨u, hu, _⟩
    exact absurd hu (by simp)
  | some u =>
    dsimp only
    by_cases hcond : (!(u.host == "linkedin.com".data) && !endsWithChars ".linkedin.com".data u.host) = true
    · rw [if_pos hcond]
      simp only [reduceCtorEq, false_iff]
      rintro ⟨v, hv, hor⟩
      rw [Option.some_inj] at hv
      subst hv
      rw [Bool.and_eq_true, Bool.not_eq_eq_eq_not, Bool.not_eq_eq_eq_not] at hcond
      obtain ⟨h1, h2⟩ := hcond
      rcases hor with hap | ⟨sub, hsub⟩
      · rw [show (u.host == "linkedin.com".data) = true from beq_iff_eq.mpr hap] at h1
        exact absurd h1 (by simp)
      · have : endsWithChars ".linkedin.com".data u.host = true := by
          rw [endsWith_iff]
          exact ⟨sub, hsub⟩
        rw [this] at h2
        exact absurd h2 (by simp)
    · rw [if_neg hcond]
      simp only [true_iff]
      refine ⟨u, rfl, ?_⟩
      rw [Bool.and_eq_true, Bool.not_eq_eq_eq_not, Bool.not_eq_eq_eq_not, not_and_or] at hcond
      rcases hcond with h1 | h2
      · left
        have : (u.host == "linkedin.com".data) = true := by
          cases hb : (u.host == "linkedin.com".data)
          · exact absurd hb h1
          · rfl
        exact beq_iff_eq.mp this
      · right
        have : endsWithChars ".linkedin.com".data u.host = true := by
          cases hb : endsWithChars ".linkedin.com".data u.host
          · exact absurd hb h2
          · rfl
        obtain ⟨pre, hpre⟩ := (endsWith_iff _ _).mp this
        exact ⟨pre, hpre⟩

theorem all_drop (p : α → Bool) (l : List α) (k : Nat) (h : l.all p = true) :
    (l.drop k).all p = true := by
  rw [List.all_eq_true] at h ⊢
  intro x hx
  exact h x (List.drop_subset k l hx)

theorem urnActivityAt_none_of_digits (l : List Char) (h : l.all isDigitChar = true) :
    urnActivityAt l = none := by
  cases l with
  | nil => rfl
  | cons c cs =>
    have hc : isDigitChar c = true := by
      rw [List.all_eq_true] at h
      exact h c (by simp)
    have hcn : 48 ≤ c.toNat ∧ c.toNat ≤ 57 := by
      simp only [isDigitChar, Bool.and_eq_true, decide_eq_true_eq] at hc
      omega
    have hcl : c.toLower = c := toLower_eq_self_of_not_upper c (by omega)
    have hcu : (c.toLower == 'u') = false := by
      rw [hcl, beq_eq_false_iff_ne]
      intro he
      rw [he] at hcn
      simp at hcn
    unfold urnActivityAt
    have hlm : litMatch "urn:li:activity:".data (c :: cs) = none := by
      rw [show ("urn:li:activity:".data) = 'u' :: "rn:li:activity:".data from rfl]
      simp only [litMatch]
      rw [hcu]
      simp
    rw [hlm]

theorem urnActivityAt_some (l d : List Char) (h : urnActivityAt l = some d) :
    d ≠ [] ∧ d.all isDigitChar = true := by
  unfold urnActivityAt at h
  cases hlm : litMatch "urn:li:activity:".data l with
  | none => rw [hlm] at h; exact absurd h (by simp)
  | some rest =>
    rw [hlm] at h
    dsimp only at h
    split_ifs at h with he
    rw [Option.some_inj] at h
    subst h
    have he2 : (List.takeWhile isDigitChar rest).isEmpty = false := by
      rw [← Bool.not_eq_true]
      exact he
    exact ⟨List.isEmpty_eq_false.mp he2, List.all_takeWhile⟩

theorem activityTokenAt_some (l d : List Char) (h : activityTokenAt l = some d) :
    d ≠ [] ∧ d.all isDigitChar = true := by
  unfold activityTokenAt at h
  cases hlm : litMatch "activity".data l with
  | none => rw [hlm] at h; exact absurd h (by simp)
  | some rest =>
    rw [hlm] at h
    cases rest with
    | nil => exact absurd h (by simp)
    | cons c rest2 =>
      dsimp only at h
      split_ifs at h with hc he
      rw [Option.some_inj] at h
      subst h
      have he2 : (List.takeWhile isDigitChar rest2).isEmpty = false := by
        rw [← Bool.not_eq_true]
        exact he
      exact ⟨List.isEmpty_eq_false.mp he2, List.all_takeWhile⟩

theorem activitySpaceAt_some (l d : List Char) (h : activitySpaceAt l = some d) :
    d ≠ [] ∧ d.all isDigitChar = true := by
  unfold activitySpaceAt at h
  cases hlm : litMatch "activity".data l with
  | none => rw [hlm] at h; exact absurd h (by simp)
  | some rest =>
    rw [hlm] at h
    cases rest with
    | nil => exact absurd h (by simp)
    | cons c rest2 =>
      dsimp only at h
      split_ifs at h with hc he
      rw [Option.some_inj] at h
      subst h
      have he2 : (List.takeWhile isDigitChar rest2).isEmpty = false := by
        rw [← Bool.not_eq_true]
        exact he
      exact ⟨List.isEmpty_eq_false.mp he2, List.all_takeWhile⟩

theorem digitRunAt_some (l d : List Char) (h : digitRunAt l = some d) :
    10 ≤ d.length ∧ d.all isDigitChar = true := by
  unfold digitRunAt at h
  dsimp only at h
  split_ifs at h with hlen
  rw [Option.some_inj] at h
  subst h
  exact ⟨hlen, List.all_takeWhile⟩

theorem httpLead_head (t : List Char)
    (h : (leadsWith "http://".data t || leadsWith "https://".data t) = true) :
    ∃ rest, t = 'h' :: rest := by
  rcases Bool.or_eq_true_iff.mp h with h1 | h1 <;>
    obtain ⟨rest, hr⟩ := (leadsWith_iff _ _).mp h1
  · exact ⟨"ttp://".data ++ rest, by rw [hr]; rfl⟩
  · exact ⟨"ttps://".data ++ rest, by rw [hr]; rfl⟩

theorem digits_no_httpLead (t : List Char)
    (hdig : t.all isDigitChar = true) :
    (leadsWith "http://".data t || leadsWith "https://".data t) = false := by
  cases hb : (leadsWith "http://".data t || leadsWith "https://".data t)
  · rfl
  · obtain ⟨rest, hr⟩ := httpLead_head t hb
    rw [hr, List.all_eq_true] at hdig
    have := hdig 'h' (by simp)
    simp [isDigitChar] at this

/-- The canonical feed-update form produced by `buildPostUrl`. -/
def feedUrl (d : List Char) : String :=
  "https://www.linkedin.com/feed/update/urn:li:activity:" ++ String.mk d ++ "/"

/-- C4 (amended): `buildPostUrl` maps a bare numeric id, a string
containing `urn:li:activity:<digits>`, a parsable http/https URL whose
pathname contains an `activity:<digits>` / `activity-<digits>` token, and
a parsable http/https URL whose pathname (lacking such a token) contains
a run of ten or more digits, all to exactly
`https://www.linkedin.com/feed/update/urn:li:activity:<digits>/`; every
input that is empty or whitespace, or from which no qualifying digit run
can be recovered, fails with an activity-format error — except that an
input beginning with http:// or https:// that cannot be parsed as a URL
fails with the URL parser's invalid-URL TypeError instead.  The slug URL
from the specification maps to the stated canonical form. -/
theorem C4_post_url (s : String) :
    (jsTrimChars s.data = [] → buildPostUrl s = Except.error "Activity id cannot be empty.")
    ∧ (jsTrimChars s.data ≠ [] → (jsTrimChars s.data).all isDigitChar = true →
        buildPostUrl s = Except.ok (feedUrl (jsTrimChars s.data)))
    ∧ (∀ d, jsTrimChars s.data ≠ [] →
        (leadsWith "http://".data (jsTrimChars s.data)
          || leadsWith "https://".data (jsTrimChars s.data)) = false →
        searchIdx (fun i => urnActivityAt ((jsTrimChars s.data).drop i))
          (jsTrimChars s.data).length = some d →
        buildPostUrl s = Except.ok (feedUrl d))
    ∧ (∀ u d, (leadsWith "http://".data (jsTrimChars s.data)
          || leadsWith "https://".data (jsTrimChars s.data)) = true →
        parseUrl (String.mk (jsTrimChars s.data)) none = some u →
        searchIdx (fun i => activityTokenAt (u.path.drop i)) u.path.length = some d →
        buildPostUrl s = Except.ok (feedUrl d))
    ∧ (∀ u d, (leadsWith "http://".data (jsTrimChars s.data)
          || leadsWith "https://".data (jsTrimChars s.data)) = true →
        parseUrl (String.mk (jsTrimChars s.data)) none = some u →
        searchIdx (fun i => activityTokenAt (u.path.drop i)) u.path.length = none →
        searchIdx (fun i => activitySpaceAt (u.path.drop i)) u.path.length = none →
        searchIdx (fun i => digitRunAt (u.path.drop i)) u.path.length = some d →
        buildPostUrl s = Except.ok (feedUrl d))
    ∧ (∀ u, (leadsWith "http://".data (jsTrimChars s.data)
          || leadsWith "https://".data (jsTrimChars s.data)) = true →
        parseUrl (String.mk (jsTrimChars s.data)) none = some u →
        searchIdx (fun i => activityTokenAt (u.path.drop i)) u.path.length = none →
        searchIdx (fun i => activitySpaceAt (u.path.drop i)) u.path.length = none →
        searchIdx (fun i => digitRunAt (u.path.drop i)) u.path.length = none →
        buildPostUrl s = Except.error activityFormatMsg)
    ∧ ((leadsWith "http://".data (jsTrimChars s.data)
          || leadsWith "https://".data (jsTrimChars s.data)) = true →
        parseUrl (String.mk (jsTrimChars s.data)) none = none →
        buildPostUrl s = Except.error ("Invalid URL: " ++ String.mk (jsTrimChars s.data)))
    ∧ (jsTrimChars s.data ≠ [] →
        (leadsWith "http://".data (jsTrimChars s.data)
          || leadsWith "https://".data (jsTrimChars s.data)) = false →
        searchIdx (fun i => urnActivityAt ((jsTrimChars s.data).drop i))
          (jsTrimChars s.data).length = none →
        (jsTrimChars s.data).all isDigitChar = false →
        buildPostUrl s = Except.error activityFormatMsg)
    ∧ buildPostUrl "https://www.linkedin.com/posts/john-doe-activity-7291234567890123456-abcd"
        = Except.ok "https://www.linkedin.com/feed/update/urn:li:activity:7291234567890123456/" := by
  refine ⟨?_, ?_, ?_, ?_, ?_, ?_, ?_, ?_, by rfl⟩
  · intro h
    simp [buildPostUrl, h]
  · intro hne hdig
    have hie : (jsTrimChars s.data).isEmpty = false := List.isEmpty_eq_false.mpr hne
    have hlead := digits_no_httpLead _ hdig
    have hurn : searchIdx (fun i => urnActivityAt ((jsTrimChars s.data).drop i))
        (jsTrimChars s.data).length = none :=
      (searchIdx_none_iff _ _).mpr (fun k _ => urnActivityAt_none_of_digits _ (all_drop _ _ _ hdig))
    simp [buildPostUrl, hie, hlead, hurn, hdig, feedUrl]
  · intro d hne hlead hsearch
    have hie : (jsTrimChars s.data).isEmpty = false := List.isEmpty_eq_false.mpr hne
    obtain ⟨k, hk1, hk, hkmin⟩ := (searchIdx_some_iff _ _ _).mp hsearch
    obtain ⟨hdne, hddig⟩ := urnActivityAt_some _ _ hk
    have hdie : d.isEmpty = false := List.isEmpty_eq_false.mpr hdne
    simp [buildPostUrl, hie, hlead, hsearch, hdie, hddig, feedUrl]
  · intro u d hlead hparse hsearch
    obtain ⟨rest, hr⟩ := httpLead_head _ hlead
    have hie : (jsTrimChars s.data).isEmpty = false := by
      rw [hr]; rfl
    obtain ⟨k, hk1, hk, hkmin⟩ := (searchIdx_some_iff _ _ _).mp hsearch
    obtain ⟨hdne, hddig⟩ := activityTokenAt_some _ _ hk
    have hdie : d.isEmpty = false := List.isEmpty_eq_false.mpr hdne
    simp [buildPostUrl, hie, hlead, hparse, hsearch, hdie, hddig, feedUrl]
  · intro u d hlead hparse hs1 hs2 hs3
    obtain ⟨rest, hr⟩ := httpLead_head _ hlead
    have hie : (jsTrimChars s.data).isEmpty = false := by
      rw [hr]; rfl
    obtain ⟨k, hk1, hk, hkmin⟩ := (searchIdx_some_iff _ _ _).mp hs3
    obtain ⟨hdlen, hddig⟩ := digitRunAt_some _ _ hk
    have hdne : d ≠ [] := by
      intro hd
      rw [hd] at hdlen
      simp at hdlen
    have hdie : d.isEmpty = false := List.isEmpty_eq_false.mpr hdne
    simp [buildPostUrl, hie, hlead, hparse, hs1, hs2, hs3, hdie, hddig, feedUrl]
  · intro u hlead hparse hs1 hs2 hs3
    obtain ⟨rest, hr⟩ := httpLead_head _ hlead
    have hie : (jsTrimChars s.data).isEmpty = false := by
      rw [hr]; rfl
    have hnd : (jsTrimChars s.data).all isDigitChar = false := by
      cases hb : (jsTrimChars s.data).all isDigitChar
      · rfl
      · rw [hr, List.all_eq_true] at hb
        have := hb 'h' (by simp)
        simp [isDigitChar] at this
    simp [buildPostUrl, hie, hlead, hparse, hs1, hs2, hs3, hnd]
  · intro hlead hparse
    obtain ⟨rest, hr⟩ := httpLead_head _ hlead
    have hie : (jsTrimChars s.data).isEmpty = false := by
      rw [hr]; rfl
    simp [buildPostUrl, hie, hlead, hparse]
  · intro hne hlead hurn hnd
    have hie : (jsTrimChars s.data).isEmpty = false := List.isEmpty_eq_false.mpr hne
    simp [buildPostUrl, hie, hlead, hurn, hnd]

/-- C4 (counterexample): the input "http://" yields no digit run, and the
code fails with the URL parser's invalid-URL TypeError — not with the
activity-format error the claim promises for every such input. -/
theorem C4_counterexample :
    buildPostUrl "http://" = Except.error "Invalid URL: http://"
    ∧ "Invalid URL: http://" ≠ activityFormatMsg
    ∧ "Invalid URL: http://" ≠ "Activity id cannot be empty." :=
  ⟨by rfl, by decide, by decide⟩

/-- C4 (witness): the bare numeric rule applied to "123456789". -/
theorem C4_post_url_witness :
    buildPostUrl "123456789"
      = Except.ok "https://www.linkedin.com/feed/update/urn:li:activity:123456789/" :=
  (C4_post_url "123456789").2.1 (by decide) (by decide)

/-! ## Claim C3: profile canonicalization idempotence -/

/-- Vanity-name characters the URL parser preserves verbatim: lower-case
ASCII letters, digits, hyphen, underscore, dot, tilde. -/
def safeVanityChar (c : Char) : Bool :=
  lowerAlnum c || c == '-' || c == '_' || c == '.' || c == '~'

theorem safe_char_facts (c : Char) (h : safeVanityChar c = true) :
    jsWhitespace c = false ∧ tabOrNl c = false ∧ c0OrSpace c = false ∧
    isSlash c = false ∧ (c == '?') = false ∧ (c == '#') = false ∧
    (c == '/') = false ∧ pathEncodeSet c = false ∧ Char.toLower c = c ∧
    c ≠ '%' := by
  simp only [safeVanityChar, lowerAlnum, Bool.or_eq_true, Bool.and_eq_true,
    decide_eq_true_eq, beq_iff_eq] at h
  have hn : (48 ≤ c.toNat ∧ c.toNat ≤ 57) ∨ (97 ≤ c.toNat ∧ c.toNat ≤ 122) ∨
      c = '-' ∨ c = '_' ∨ c = '.' ∨ c = '~' := by tauto
  rcases hn with hr | hr | rfl | rfl | rfl | rfl
  · refine ⟨?_, ?_, ?_, ?_, ?_, ?_, ?_, ?_, ?_, ?_⟩
    · refine Bool.eq_false_iff.mpr ?_; intro hb; simp [jsWhitespace] at hb; omega
    · refine Bool.eq_false_iff.mpr ?_; intro hb; simp [tabOrNl] at hb; omega
    · refine Bool.eq_false_iff.mpr ?_; intro hb; simp [c0OrSpace] at hb; omega
    · refine Bool.eq_false_iff.mpr ?_; intro hb
      simp only [isSlash, Bool.or_eq_true, beq_iff_eq] at hb
      rcases hb with rfl | rfl <;> exact absurd hr (by decide)
    · rw [beq_eq_false_iff_ne]; intro he; rw [he] at hr; exact absurd hr (by decide)
    · rw [beq_eq_false_iff_ne]; intro he; rw [he] at hr; exact absurd hr (by decide)
    · rw [beq_eq_false_iff_ne]; intro he; rw [he] at hr; exact absurd hr (by decide)
    · refine Bool.eq_false_iff.mpr ?_; intro hb; simp [pathEncodeSet] at hb; omega
    · exact toLower_eq_self_of_not_upper c (by omega)
    · intro he; rw [he] at hr; exact absurd hr (by decide)
  · refine ⟨?_, ?_, ?_, ?_, ?_, ?_, ?_, ?_, ?_, ?_⟩
    · refine Bool.eq_false_iff.mpr ?_; intro hb; simp [jsWhitespace] at hb; omega
    · refine Bool.eq_false_iff.mpr ?_; intro hb; simp [tabOrNl] at hb; omega
    · refine Bool.eq_false_iff.mpr ?_; intro hb; simp [c0OrSpace] at hb; omega
    · refine Bool.eq_false_iff.mpr ?_; intro hb
      simp only [isSlash, Bool.or_eq_true, beq_iff_eq] at hb
      rcases hb with rfl | rfl <;> exact absurd hr (by decide)
    · rw [beq_eq_false_iff_ne]; intro he; rw [he] at hr; exact absurd hr (by decide)
    · rw [beq_eq_false_iff_ne]; intro he; rw [he] at hr; exact absurd hr (by decide)
    · rw [beq_eq_false_iff_ne]; intro he; rw [he] at hr; exact absurd hr (by decide)
    · refine Bool.eq_false_iff.mpr ?_; intro hb; simp [pathEncodeSet] at hb; omega
    · exact toLower_eq_self_of_not_upper c (by omega)
    · intro he; rw [he] at hr; exact absurd hr (by decide)
  · exact ⟨rfl, rfl, rfl, rfl, rfl, rfl, rfl, rfl, rfl, by decide⟩
  · exact ⟨rfl, rfl, rfl, rfl, rfl, rfl, rfl, rfl, rfl, by decide⟩
  · exact ⟨rfl, rfl, rfl, rfl, rfl, rfl, rfl, rfl, rfl, by decide⟩
  · exact ⟨rfl, rfl, rfl, rfl, rfl, rfl, rfl, rfl, rfl, by decide⟩

theorem takeWhile_all_eq (p : α → Bool) (l : List α) (h : ∀ c ∈ l, p c = true) :
    l.takeWhile p = l := by
  induction l with
  | nil => rfl
  | cons c cs ih =>
    rw [List.takeWhile_cons, if_pos (h c (by simp))]
    rw [ih (fun x hx => h x (by simp [hx]))]

theorem dropWhile_all_eq (p : α → Bool) (l : List α) (h : ∀ c ∈ l, p c = true) :
    l.dropWhile p = [] := by
  induction l with
  | nil => rfl
  | cons c cs ih =>
    rw [List.dropWhile_cons, if_pos (h c (by simp))]
    exact ih (fun x hx => h x (by simp [hx]))

theorem foldr_splitStep_no_sep (p : Char → Bool) (t : List Char)
    (h : ∀ c ∈ t, p c = false) (s : List Char) (rest : List (List Char)) :
    t.foldr (splitStep p) (s :: rest) = (t ++ s) :: rest := by
  induction t with
  | nil => rfl
  | cons c cs ih =>
    rw [List.foldr_cons, ih (fun x hx => h x (by simp [hx]))]
    simp [splitStep, h c (by simp)]

theorem map_toLower_safe (t : List Char) (h : ∀ c ∈ t, safeVanityChar c = true) :
    t.map Char.toLower = t := by
  induction t with
  | nil => rfl
  | cons c cs ih =>
    rw [List.map_cons, (safe_char_facts c (h c (by simp))).2.2.2.2.2.2.2.2.1,
      ih (fun x hx => h x (by simp [hx]))]

theorem no_percent_safe (t : List Char) (h : ∀ c ∈ t, safeVanityChar c = true) :
    ∀ s : List Char, '%' ∈ s → t ≠ s := by
  intro s hs he
  subst he
  exact (safe_char_facts '%' (h '%' hs)).2.2.2.2.2.2.2.2.2 rfl

theorem isDotSeg_safe (t : List Char) (h : ∀ c ∈ t, safeVanityChar c = true)
    (hne : t ≠ ['.']) : isDotSeg t = false := by
  unfold isDotSeg
  rw [map_toLower_safe t h]
  rw [show (t == ['.']) = false from beq_eq_false_iff_ne.mpr hne]
  rw [show (t == "%2e".data) = false from
    beq_eq_false_iff_ne.mpr (no_percent_safe t h _ (by decide))]
  rfl

theorem isDotDotSeg_safe (t : List Char) (h : ∀ c ∈ t, safeVanityChar c = true)
    (hne : t ≠ "..".data) : isDotDotSeg t = false := by
  unfold isDotDotSeg
  rw [map_toLower_safe t h]
  dsimp only
  rw [show (t == "..".data) = false from beq_eq_false_iff_ne.mpr hne]
  rw [show (t == ".%2e".data) = false from
    beq_eq_false_iff_ne.mpr (no_percent_safe t h _ (by decide))]
  rw [show (t == "%2e.".data) = false from
    beq_eq_false_iff_ne.mpr (no_percent_safe t h _ (by decide))]
  rw [show (t == "%2e%2e".data) = false from
    beq_eq_false_iff_ne.mpr (no_percent_safe t h _ (by decide))]
  rfl

theorem encodeSeg_safe (t : List Char) (h : ∀ c ∈ t, safeVanityChar c = true) :
    encodeSeg t = t := by
  induction t with
  | nil => rfl
  | cons c cs ih =>
    unfold encodeSeg at ih ⊢
    rw [List.foldr_cons, ih (fun x hx => h x (by simp [hx]))]
    unfold pathEncodeChar
    rw [if_neg (by rw [(safe_char_facts c (h c (by simp))).2.2.2.2.2.2.2.1]; simp)]
    rfl

theorem trimEnds_eq (p : Char → Bool) (a : Char) (l : List Char) (b : Char)
    (ha : p a = false) (hb : p b = false) :
    (((a :: (l ++ [b])).dropWhile p).reverse.dropWhile p).reverse = a :: (l ++ [b]) := by
  rw [List.dropWhile_cons, if_neg (by simp [ha])]
  rw [show (a :: (l ++ [b])).reverse = b :: (l.reverse ++ [a]) by simp]
  rw [List.dropWhile_cons, if_neg (by simp [hb])]
  simp

theorem dropWhile_all_false (p : α → Bool) (l : List α) (h : ∀ c ∈ l, p c = false) :
    l.dropWhile p = l := by
  induction l with
  | nil => rfl
  | cons c cs ih =>
    rw [List.dropWhile_cons, if_neg (by simp [h c (by simp)])]

theorem anySuffix_append (test : List Char → Bool) (pre s : List Char)
    (h : test s = true) : anySuffix test (pre ++ s) = true := by
  induction pre with
  | nil =>
    cases s with
    | nil => simpa [anySuffix] using h
    | cons c cs => simp [anySuffix, h]
  | cons c cs ih =>
    simp only [List.cons_append, anySuffix, Bool.or_eq_true]
    exact Or.inr ih

theorem litMatch_self (lit : List Char) (h : ∀ c ∈ lit, (c.toLower == c) = true) :
    ∀ rest, litMatch lit (lit ++ rest) = some rest := by
  induction lit with
  | nil => intro rest; rfl
  | cons c cs ih =>
    intro rest
    simp only [List.cons_append, litMatch]
    rw [if_pos (h c (by simp))]
    exact ih (fun x hx => h x (by simp [hx])) rest

theorem takeWhile_append_cons (p : α → Bool) (l₁ : List α) (d : α) (l₂ : List α)
    (h1 : ∀ c ∈ l₁, p c = true) (hd : p d = false) :
    (l₁ ++ d :: l₂).takeWhile p = l₁ ∧ (l₁ ++ d :: l₂).dropWhile p = d :: l₂ := by
  induction l₁ with
  | nil =>
    refine ⟨?_, ?_⟩
    · rw [List.nil_append, List.takeWhile_cons, if_neg (by simp [hd])]
    · rw [List.nil_append, List.dropWhile_cons, if_neg (by simp [hd])]
  | cons c cs ih =>
    obtain ⟨iht, ihd⟩ := ih (fun x hx => h1 x (by simp [hx]))
    refine ⟨?_, ?_⟩
    · rw [List.cons_append, List.takeWhile_cons, if_pos (h1 c (by simp)), iht]
    · rw [List.cons_append, List.dropWhile_cons, if_pos (h1 c (by simp)), ihd]

theorem c3SchemeSplit (R : List Char) :
    schemeSplit ('h' :: ("ttps".data ++ (':' :: R))) = some ("https".data, R) := by
  obtain ⟨ht, hd⟩ := takeWhile_append_cons schemeChar "ttps".data ':' R (by decide) (by decide)
  simp only [schemeSplit]
  rw [if_pos (show asciiLetter 'h' = true by decide)]
  rw [hd]
  rw [ht]
  rfl

theorem c3HostPort :
    parseHostPort "https".data "www.linkedin.com".data
      = some ("www.linkedin.com".data, []) := by decide

theorem c3Serialize (t : List Char) (hall : ∀ c ∈ t, safeVanityChar c = true)
    (h3 : t ≠ ['.']) (h4 : t ≠ "..".data) :
    serializeSpecialPath ('/' :: ("in/".data ++ (t ++ ['/'])))
      = '/' :: ("in/".data ++ (t ++ ['/'])) := by
  have hsl : ∀ c ∈ t, isSlash c = false := fun c hc => (safe_char_facts c (hall c hc)).2.2.2.1
  have hsplit : splitOnPred isSlash ("in/".data ++ (t ++ ['/'])) = [['i', 'n'], t, []] := by
    unfold splitOnPred
    rw [List.foldr_append, List.foldr_append]
    rw [show List.foldr (splitStep isSlash) [[]] ['/'] = [[], []] from by decide]
    rw [foldr_splitStep_no_sep isSlash t hsl [] [[]]]
    rw [List.append_nil]
    show List.foldr (splitStep isSlash) [t, []] ('i' :: 'n' :: '/' :: []) = _
    rw [List.foldr_cons, List.foldr_cons, List.foldr_cons, List.foldr_nil]
    rw [show splitStep isSlash '/' [t, []] = [[], t, []] from by
      unfold splitStep; rw [if_pos (show isSlash '/' = true by decide)]]
    rw [show splitStep isSlash 'n' [[], t, []] = [['n'], t, []] from by
      unfold splitStep; rw [if_neg (show ¬isSlash 'n' = true by decide)]]
    rw [show splitStep isSlash 'i' [['n'], t, []] = [['i', 'n'], t, []] from by
      unfold splitStep; rw [if_neg (show ¬isSlash 'i' = true by decide)]]
  have hmap : [['i', 'n'], t, []].map encodeSeg = [['i', 'n'], t, []] := by
    rw [List.map_cons, List.map_cons, List.map_cons, List.map_nil,
      encodeSeg_safe t hall, show encodeSeg ['i', 'n'] = ['i', 'n'] from by decide,
      show encodeSeg [] = ([] : List Char) from rfl]
  have hnorm : normSegs [] [['i', 'n'], t, []] = [['i', 'n'], t, []] := by
    unfold normSegs
    rw [if_neg (show ¬isDotDotSeg ['i', 'n'] = true by decide),
      if_neg (show ¬isDotSeg ['i', 'n'] = true by decide)]
    unfold normSegs
    rw [if_neg (by simp [isDotDotSeg_safe t hall h4]),
      if_neg (by simp [isDotSeg_safe t hall h3])]
    unfold normSegs
    rw [if_neg (show ¬isDotDotSeg [] = true by decide),
      if_neg (show ¬isDotSeg [] = true by decide)]
    simp
  have hint : List.intercalate ['/'] [['i', 'n'], t, []] = "in/".data ++ (t ++ ['/']) := by
    unfold List.intercalate
    rw [show List.intersperse ['/'] [['i', 'n'], t, []] = [['i', 'n'], ['/'], t, ['/'], []] from by
      simp [List.intersperse]]
    simp [List.flatten]
  unfold serializeSpecialPath
  dsimp only
  rw [hsplit, hmap, hnorm, hint]

theorem dropWhile_cons_false (p : α → Bool) (c : α) (l : List α) (h : p c = false) :
    (c :: l).dropWhile p = c :: l := by
  rw [List.dropWhile_cons, if_neg (by simp [h])]

theorem c3SpecialRest (t : List Char) (hall : ∀ c ∈ t, safeVanityChar c = true)
    (h3 : t ≠ ['.']) (h4 : t ≠ "..".data) :
    parseSpecialRest "https".data
        ('/' :: '/' :: ("www.linkedin.com".data ++ ('/' :: ("in/".data ++ (t ++ ['/'])))))
      = some { scheme := "https".data, hasAuthority := true,
               host := "www.linkedin.com".data, port := [],
               path := '/' :: ("in/".data ++ (t ++ ['/'])), search := [], hash := [] } := by
  have hsafe := fun c hc => safe_char_facts c (hall c hc)
  have hdrop : ('/' :: '/' :: ("www.linkedin.com".data
        ++ ('/' :: ("in/".data ++ (t ++ ['/']))))).dropWhile isSlash
      = "www.linkedin.com".data ++ ('/' :: ("in/".data ++ (t ++ ['/']))) := by
    rw [List.dropWhile_cons, if_pos (show isSlash '/' = true by decide),
      List.dropWhile_cons, if_pos (show isSlash '/' = true by decide)]
    exact dropWhile_cons_false isSlash 'w' _ (by decide)
  obtain ⟨hta, hda⟩ := takeWhile_append_cons (fun c => !(isSlash c || c == '?' || c == '#'))
    "www.linkedin.com".data '/' ("in/".data ++ (t ++ ['/'])) (by decide) (by decide)
  have hq : ∀ c ∈ ('/' :: ("in/".data ++ (t ++ ['/']))), (!(c == '?' || c == '#')) = true := by
    intro c hc
    simp only [List.mem_cons, List.mem_append, List.not_mem_nil, or_false] at hc
    rcases hc with rfl | (rfl | rfl | rfl) | hc | rfl
    · decide
    · decide
    · decide
    · decide
    · simp [(hsafe c hc).2.2.2.2.1, (hsafe c hc).2.2.2.2.2.1]
    · decide
  unfold parseSpecialRest
  dsimp only
  rw [hdrop, hta, hda, c3HostPort]
  dsimp only
  rw [takeWhile_all_eq _ _ hq, dropWhile_all_eq _ _ hq]
  rw [c3Serialize t hall h3 h4]
  rfl

theorem parse_canonical (t : List Char) (hall : ∀ c ∈ t, safeVanityChar c = true)
    (h3 : t ≠ ['.']) (h4 : t ≠ "..".data) :
    parseUrl ("https://www.linkedin.com/in/" ++ String.mk t ++ "/") (some linkedinBase)
      = some { scheme := "https".data, hasAuthority := true,
               host := "www.linkedin.com".data, port := [],
               path := '/' :: ("in/".data ++ (t ++ ['/'])), search := [], hash := [] } := by
  have hdata : ("https://www.linkedin.com/in/" ++ String.mk t ++ "/").data
      = 'h' :: (("ttps://www.linkedin.com/in/".data ++ t) ++ ['/']) := rfl
  have hmem : ∀ c ∈ ('h' :: (("ttps://www.linkedin.com/in/".data ++ t) ++ ['/'])),
      (!tabOrNl c) = true := by
    intro c hc
    rcases List.mem_cons.mp hc with rfl | hc2
    · decide
    rcases List.mem_append.mp hc2 with hc3 | hc4
    · rcases List.mem_append.mp hc3 with hc5 | hc6
      · exact (by decide : ∀ x ∈ "ttps://www.linkedin.com/in/".data, (!tabOrNl x) = true) c hc5
      · simp [(safe_char_facts c (hall c hc6)).2.1]
    · rcases List.mem_singleton.mp hc4 with rfl
      decide
  have hpre : preprocessUrl ("https://www.linkedin.com/in/" ++ String.mk t ++ "/")
      = 'h' :: (("ttps://www.linkedin.com/in/".data ++ t) ++ ['/']) := by
    unfold preprocessUrl
    rw [hdata, List.filter_eq_self.mpr hmem]
    exact trimEnds_eq c0OrSpace 'h' _ '/' (by decide) (by decide)
  have hform : ('h' :: (("ttps://www.linkedin.com/in/".data ++ t) ++ ['/']))
      = 'h' :: ("ttps".data ++ (':' :: ('/' :: '/' :: ("www.linkedin.com".data
          ++ ('/' :: ("in/".data ++ (t ++ ['/']))))))) := rfl
  have hlw : leadsWith "//".data ('/' :: '/' :: ("www.linkedin.com".data
      ++ ('/' :: ("in/".data ++ (t ++ ['/']))))) = true := by
    simp [leadsWith]
  have hcondF : (("https".data == linkedinBase.scheme && specialScheme "https".data)
      && !leadsWith "//".data ('/' :: '/' :: ("www.linkedin.com".data
        ++ ('/' :: ("in/".data ++ (t ++ ['/'])))))) = false := by
    rw [hlw]
    simp
  unfold parseUrl
  dsimp only
  rw [hpre, hform, c3SchemeSplit]
  dsimp only
  rw [if_neg (fun hcc => Bool.false_ne_true (hcondF ▸ hcc))]
  unfold parseAbsolute
  rw [c3SchemeSplit]
  dsimp only
  rw [if_pos (show specialScheme "https".data = true by decide)]
  exact c3SpecialRest t hall h3 h4

/-- C3 counterexample: `buildProfileUrl` is not idempotent on every
input it accepts. A vanity with a space is accepted verbatim on the
first pass, but the second pass percent-encodes the space, producing a
different string. -/
theorem C3_counterexample :
    buildProfileUrl "a b" = Except.ok "https://www.linkedin.com/in/a b/" ∧
    buildProfileUrl "https://www.linkedin.com/in/a b/"
      = Except.ok "https://www.linkedin.com/in/a%20b/" ∧
    ("https://www.linkedin.com/in/a%20b/" : String) ≠ "https://www.linkedin.com/in/a b/" :=
  ⟨by rfl, by rfl, by decide⟩

/-- C3 (amended): for inputs whose trimmed form is a non-empty string of
safe vanity characters (lower-case letters, digits, `-`, `_`, `.`, `~`)
other than `.` and `..`, `buildProfileUrl` returns
`https://www.linkedin.com/in/<trimmed>/`, and applying `buildProfileUrl`
to that output returns it unchanged. -/
theorem C3_profile_idempotent (v : String)
    (h1 : jsTrimChars v.data ≠ [])
    (h2 : ∀ c ∈ jsTrimChars v.data, safeVanityChar c = true)
    (h3 : jsTrimChars v.data ≠ ['.'])
    (h4 : jsTrimChars v.data ≠ "..".data) :
    buildProfileUrl v
      = Except.ok ("https://www.linkedin.com/in/" ++ String.mk (jsTrimChars v.data) ++ "/")
    ∧ buildProfileUrl ("https://www.linkedin.com/in/" ++ String.mk (jsTrimChars v.data) ++ "/")
      = Except.ok ("https://www.linkedin.com/in/" ++ String.mk (jsTrimChars v.data) ++ "/") := by
  have hie : (jsTrimChars v.data).isEmpty = false := by
    rw [List.isEmpty_eq_false]
    exact h1
  have hnoslash : ∀ c ∈ jsTrimChars v.data, (fun c => c == '/') c = false := fun c hc => by
    simp only
    exact (safe_char_facts c (h2 c hc)).2.2.2.2.2.2.1
  have hlead1 : leadsWith "http://".data (jsTrimChars v.data) = false := by
    cases hb : leadsWith "http://".data (jsTrimChars v.data) with
    | false => rfl
    | true =>
      obtain ⟨rest, hr⟩ := (leadsWith_iff _ _).mp hb
      have hmem : (':' : Char) ∈ jsTrimChars v.data := by
        rw [hr]
        exact List.mem_append.mpr (Or.inl (by decide))
      exact absurd (h2 ':' hmem) (by decide)
  have hlead2 : leadsWith "https://".data (jsTrimChars v.data) = false := by
    cases hb : leadsWith "https://".data (jsTrimChars v.data) with
    | false => rfl
    | true =>
      obtain ⟨rest, hr⟩ := (leadsWith_iff _ _).mp hb
      have hmem : (':' : Char) ∈ jsTrimChars v.data := by
        rw [hr]
        exact List.mem_append.mpr (Or.inl (by decide))
      exact absurd (h2 ':' hmem) (by decide)
  constructor
  · unfold buildProfileUrl
    dsimp only
    rw [if_neg (by simp [hie])]
    rw [if_neg (by simp [hlead1, hlead2])]
    rw [dropWhile_all_false _ _ hnoslash]
    rw [dropWhile_all_false _ ((jsTrimChars v.data).reverse)
      (fun c hc => hnoslash c (List.mem_reverse.mp hc))]
    rw [List.reverse_reverse]
    rw [if_neg (by simp [hie])]
  · have hSdata : ("https://www.linkedin.com/in/" ++ String.mk (jsTrimChars v.data) ++ "/").data
        = 'h' :: (("ttps://www.linkedin.com/in/".data ++ jsTrimChars v.data) ++ ['/']) := rfl
    have htrim : jsTrimChars
          ("https://www.linkedin.com/in/" ++ String.mk (jsTrimChars v.data) ++ "/").data
        = 'h' :: (("ttps://www.linkedin.com/in/".data ++ jsTrimChars v.data) ++ ['/']) := by
      rw [hSdata]
      exact trimEnds_eq jsWhitespace 'h' _ '/' (by decide) (by decide)
    have hSne : ("https://www.linkedin.com/in/" ++ String.mk (jsTrimChars v.data) ++ "/") ≠ "" := by
      intro he
      have hd2 : ("https://www.linkedin.com/in/" ++ String.mk (jsTrimChars v.data) ++ "/").data
          = ("" : String).data := by rw [he]
      rw [hSdata] at hd2
      exact absurd (hd2.trans (show ("" : String).data = [] from rfl)) (List.cons_ne_nil _ _)
    have hinv : inVanity ('/' :: ("in/".data ++ (jsTrimChars v.data ++ ['/'])))
        = some (jsTrimChars v.data) := by
      show inVanity ('/' :: 'i' :: 'n' :: '/' :: (jsTrimChars v.data ++ ['/']))
          = some (jsTrimChars v.data)
      obtain ⟨hta, _⟩ := takeWhile_append_cons (fun c => !(c == '/' || c == '?' || c == '#'))
        (jsTrimChars v.data) '/' []
        (fun c hc => by
          simp [(safe_char_facts c (h2 c hc)).2.2.2.2.1,
            (safe_char_facts c (h2 c hc)).2.2.2.2.2.1,
            (safe_char_facts c (h2 c hc)).2.2.2.2.2.2.1]) (by decide)
      simp only [inVanity]
      rw [if_pos (by decide)]
      rw [hta]
      rw [if_neg (by simp [hie])]
    have hcanon : toCanonicalProfileUrl
          ("https://www.linkedin.com/in/" ++ String.mk (jsTrimChars v.data) ++ "/")
        = "https://www.linkedin.com/in/" ++ String.mk (jsTrimChars v.data) ++ "/" := by
      unfold toCanonicalProfileUrl
      rw [if_neg hSne]
      rw [parse_canonical (jsTrimChars v.data) h2 h3 h4]
      dsimp only
      rw [hinv]
    have hput : profileUrlTest
        ("https://www.linkedin.com/in/" ++ String.mk (jsTrimChars v.data) ++ "/").data = true := by
      show profileUrlTest
          ("https://www.".data ++ ("linkedin.com/in/".data ++ (jsTrimChars v.data ++ ['/']))) = true
      unfold profileUrlTest
      apply anySuffix_append
      unfold profileTailTest
      rw [litMatch_self "linkedin.com/in/".data (by decide) (jsTrimChars v.data ++ ['/'])]
      dsimp only
      obtain ⟨hta2, hda2⟩ := takeWhile_append_cons (fun c => !(c == '/'))
        (jsTrimChars v.data) '/' []
        (fun c hc => by simp [(safe_char_facts c (h2 c hc)).2.2.2.2.2.2.1]) (by decide)
      rw [hta2, hda2]
      rw [if_neg (by simp [hie])]
      decide
    unfold buildProfileUrl
    dsimp only
    rw [htrim]
    rw [if_neg (by simp)]
    have hlw2 : (leadsWith "http://".data
          ('h' :: (("ttps://www.linkedin.com/in/".data ++ jsTrimChars v.data) ++ ['/']))
        || leadsWith "https://".data
          ('h' :: (("ttps://www.linkedin.com/in/".data ++ jsTrimChars v.data) ++ ['/']))) = true := by
      apply Bool.or_eq_true_iff.mpr
      right
      show leadsWith "https://".data
          ('h' :: 't' :: 't' :: 'p' :: 's' :: ':' :: '/' :: '/' ::
            (("www.linkedin.com/in/".data ++ jsTrimChars v.data) ++ ['/'])) = true
      simp [leadsWith]
    rw [if_pos hlw2]
    rw [show String.mk ('h' :: (("ttps://www.linkedin.com/in/".data ++ jsTrimChars v.data) ++ ['/']))
        = "https://www.linkedin.com/in/" ++ String.mk (jsTrimChars v.data) ++ "/" from rfl]
    rw [hcanon]
    rw [if_neg (show ¬((!profileUrlTest
        ("https://www.linkedin.com/in/" ++ String.mk (jsTrimChars v.data) ++ "/").data) = true) from by
      rw [hput]
      decide)]

/-- Witness for C3: the amended idempotence theorem applied at the
concrete vanity `jane-doe`. -/
theorem C3_profile_idempotent_witness :
    buildProfileUrl "jane-doe"
      = Except.ok ("https://www.linkedin.com/in/"
          ++ String.mk (jsTrimChars "jane-doe".data) ++ "/")
    ∧ buildProfileUrl ("https://www.linkedin.com/in/"
          ++ String.mk (jsTrimChars "jane-doe".data) ++ "/")
      = Except.ok ("https://www.linkedin.com/in/"
          ++ String.mk (jsTrimChars "jane-doe".data) ++ "/") :=
  C3_profile_idempotent "jane-doe" (by decide) (by decide) (by decide) (by decide)

/-! ## Raw card normalization and deduplication
(linkedin.ts lines 322-340, 450-462 and 618-656) -/

/-- Raw people card as scraped from the page. -/
structure RawPeopleCard where
  name : String
  headline : String
  location : String
  connectionDegreeText : String
  profileUrl : String
deriving Repr, DecidableEq

/-- Normalized search result record. -/
structure SearchPersonResult where
  name : String
  headline : String
  location : String
  connectionDegree : String
  profileUrl : String
deriving Repr, DecidableEq

/-- JavaScript `a || b` on strings: the empty string is falsy. -/
def jsOr (a b : String) : String := if a = "" then b else a

/-- Normalization of one raw card: the `map` body of
`rawPeopleCardsToResults` (linkedin.ts lines 325-337). -/
def normalizeCard (item : RawPeopleCard) : SearchPersonResult :=
  let parsedText := parseSearchCardText item.connectionDegreeText
  { name := jsOr item.name parsedText.name
    headline := jsOr item.headline parsedText.headline
    location := jsOr item.location parsedText.location
    connectionDegree := inferDegree item.connectionDegreeText
    profileUrl := toCanonicalProfileUrl item.profileUrl }

/-- Embedding of `rawPeopleCardsToResults` (linkedin.ts lines 322-340):
drop cards without a raw profile URL, normalize, keep only records with
a non-empty name AND a non-empty canonical profile URL. -/
def rawPeopleCardsToResults (rawResults : List RawPeopleCard) : List SearchPersonResult :=
  ((rawResults.filter (fun item => !(item.profileUrl == ""))).map normalizeCard).filter
    (fun item => !(item.name == "") && !(item.profileUrl == ""))

/-- Association-list lookup by key; models `Map.get`/`Map.has` on a JS
Map kept in insertion order. -/
def lookupKey (k : String) (m : List (String × α)) : Option α :=
  (m.find? (fun kv => kv.1 == k)).map Prod.snd

/-- The dedup insertion loop of `collectPeopleResultsByPageNumber`
(linkedin.ts lines 450-454): `if (!seen.has(url)) seen.set(url, person)`
— the first record for a key wins. -/
def insertAll (seen : List (String × SearchPersonResult)) (parsed : List SearchPersonResult) :
    List (String × SearchPersonResult) :=
  parsed.foldl
    (fun acc person =>
      if (lookupKey person.profileUrl acc).isSome then acc
      else acc ++ [(person.profileUrl, person)]) seen

/-- JS `Map.set`: overwrites the value at an existing key (keeping its
insertion position), otherwise appends a new entry. -/
def mapSet (m : List (String × α)) (k : String) (v : α) : List (String × α) :=
  match m with
  | [] => [(k, v)]
  | kv :: rest => if kv.1 == k then (k, v) :: rest else kv :: mapSet rest k v

/-- The dedup loop of `scrapeVisibleMutualConnections` (linkedin.ts
lines 651-655): an unconditional `deduped.set`, so the LAST record for a
key wins. -/
def dedupeMutuals (mapped : List MutualConnectionResult) : List MutualConnectionResult :=
  (mapped.foldl (fun acc m => mapSet acc m.profileUrl m) []).map Prod.snd

/-- Raw link scraped for one visible mutual connection. -/
structure RawMutualLink where
  profileUrl : String
  text : String
deriving Repr, DecidableEq

/-- Embedding of the pure tail of `scrapeVisibleMutualConnections`
(linkedin.ts lines 638-656): normalize each scraped link, keep records
with a name and a canonical URL, dedup by canonical URL with last-wins
`Map.set`. -/
def scrapeVisibleMutualConnectionsPure (raw : List RawMutualLink) : List MutualConnectionResult :=
  dedupeMutuals
    ((raw.map (fun item =>
      let parsed := parseSearchCardText item.text
      ({ name := parsed.name
         headline := parsed.headline
         location := parsed.location
         connectionDegree := inferDegree item.text
         profileUrl := toCanonicalProfileUrl item.profileUrl } : MutualConnectionResult))).filter
      (fun item => !(item.name == "") && !(item.profileUrl == "")))

theorem lookupKey_append (k : String) (l₁ l₂ : List (String × α)) :
    lookupKey k (l₁ ++ l₂) = (lookupKey k l₁).or (lookupKey k l₂) := by
  unfold lookupKey
  rw [List.find?_append]
  cases List.find? (fun kv => kv.1 == k) l₁ <;> simp [Option.or]

theorem find_cons_eq (p : α → Bool) (a : α) (l : List α) :
    (a :: l).find? p = if p a then some a else l.find? p := by
  rw [List.find?_cons]
  cases h : p a <;> simp [h]

theorem lookupKey_cons (k : String) (kv : String × α) (rest : List (String × α)) :
    lookupKey k (kv :: rest) = if kv.1 == k then some kv.2 else lookupKey k rest := by
  unfold lookupKey
  rw [find_cons_eq]
  by_cases h : (kv.1 == k) = true <;> simp [h]

theorem lookup_insertAll (parsed : List SearchPersonResult) :
    ∀ (seen : List (String × SearchPersonResult)) (k : String),
    lookupKey k (insertAll seen parsed)
      = (lookupKey k seen).or (parsed.find? (fun p => p.profileUrl == k)) := by
  induction parsed with
  | nil =>
    intro seen k
    cases h : lookupKey k seen <;> simp [insertAll, h, Option.or]
  | cons p ps ih =>
    intro seen k
    have hstep : insertAll seen (p :: ps)
        = insertAll (if (lookupKey p.profileUrl seen).isSome then seen
                     else seen ++ [(p.profileUrl, p)]) ps := by
      unfold insertAll
      rw [List.foldl_cons]
    rw [hstep, find_cons_eq]
    by_cases hs : (lookupKey p.profileUrl seen).isSome
    · rw [if_pos hs, ih seen k]
      by_cases hpk : (p.profileUrl == k) = true
      · have hk2 : lookupKey k seen = lookupKey p.profileUrl seen := by
          rw [beq_iff_eq.mp hpk]
        obtain ⟨v, hv⟩ := Option.isSome_iff_exists.mp hs
        rw [hk2, hv, if_pos hpk]
        simp [Option.or]
      · rw [if_neg hpk]
    · rw [if_neg hs, ih (seen ++ [(p.profileUrl, p)]) k, lookupKey_append]
      by_cases hpk : (p.profileUrl == k) = true
      · have hsing : lookupKey k [(p.profileUrl, p)] = some p := by
          rw [lookupKey_cons, if_pos hpk]
        rw [hsing, if_pos hpk]
        have hkseen : lookupKey k seen = none := by
          rw [← beq_iff_eq.mp hpk]
          exact Option.not_isSome_iff_eq_none.mp hs
        rw [hkseen]
        simp [Option.or]
      · have hsing : lookupKey k [(p.profileUrl, p)] = none := by
          rw [lookupKey_cons, if_neg hpk]
          rfl
        rw [hsing, if_neg hpk]
        cases hcase : lookupKey k seen <;> simp [Option.or]

theorem lookup_mapSet (k k' : String) (v : α) (m : List (String × α)) :
    lookupKey k (mapSet m k' v) = if k' == k then some v else lookupKey k m := by
  induction m with
  | nil =>
    show lookupKey k [(k', v)] = _
    rw [lookupKey_cons]
  | cons kv rest ih =>
    unfold mapSet
    by_cases h1 : (kv.1 == k') = true
    · rw [if_pos h1, lookupKey_cons, lookupKey_cons]
      by_cases h2 : (k' == k) = true
      · rw [if_pos (show (((k', v) : String × α).1 == k) = true from h2), if_pos h2]
      · have h3 : (kv.1 == k) = false := by
          cases hb : (kv.1 == k) with
          | false => rfl
          | true =>
            exact absurd (show (k' == k) = true by rw [← beq_iff_eq.mp h1]; exact hb) h2
        rw [if_neg (show ¬((((k', v) : String × α).1 == k) = true) from h2), if_neg h2,
          if_neg (by simp [h3])]
    · rw [if_neg h1, lookupKey_cons, ih]
      by_cases h2 : (k' == k) = true
      · have h3 : (kv.1 == k) = false := by
          cases hb : (kv.1 == k) with
          | false => rfl
          | true =>
            exact absurd (show (kv.1 == k') = true by rw [beq_iff_eq.mp h2]; exact hb) h1
        rw [if_pos h2, if_neg (by simp [h3]), if_pos h2]
      · rw [if_neg h2, lookupKey_cons, if_neg h2]

theorem lookup_dedupe_general (mapped : List MutualConnectionResult) :
    ∀ (init : List (String × MutualConnectionResult)) (k : String),
    lookupKey k (mapped.foldl (fun acc m => mapSet acc m.profileUrl m) init)
      = (mapped.reverse.find? (fun m => m.profileUrl == k)).or (lookupKey k init) := by
  induction mapped with
  | nil =>
    intro init k
    simp [Option.or]
  | cons m ms ih =>
    intro init k
    rw [List.foldl_cons, ih (mapSet init m.profileUrl m) k, lookup_mapSet,
      List.reverse_cons, List.find?_append]
    cases hms : ms.reverse.find? (fun x => x.profileUrl == k) with
    | some a => simp [Option.or]
    | none =>
      by_cases hmk : (m.profileUrl == k) = true
      · simp [Option.or, find_cons_eq, hmk]
      · simp [Option.or, find_cons_eq, hmk]

theorem mem_rawPeopleCardsToResults (raws : List RawPeopleCard) (r : SearchPersonResult) :
    r ∈ rawPeopleCardsToResults raws
      ↔ (∃ raw, raw ∈ raws ∧ ¬raw.profileUrl = "" ∧ normalizeCard raw = r)
        ∧ ¬r.name = "" ∧ ¬r.profileUrl = "" := by
  unfold rawPeopleCardsToResults
  rw [List.mem_filter, List.mem_map]
  constructor
  · rintro ⟨⟨a, ha, rfl⟩, hq⟩
    rw [List.mem_filter] at ha
    have hq2 : ¬(normalizeCard a).name = "" ∧ ¬(normalizeCard a).profileUrl = "" := by
      simpa using hq
    exact ⟨⟨a, ha.1, by simpa using ha.2, rfl⟩, hq2.1, hq2.2⟩
  · rintro ⟨⟨a, ha, hp, rfl⟩, hn, hu⟩
    refine ⟨⟨a, ?_, rfl⟩, by simpa using And.intro hn hu⟩
    rw [List.mem_filter]
    exact ⟨ha, by simpa using hp⟩

/-- C7: normalization and deduplication behavior.  (1) A normalized
record survives iff it comes from a raw card with a raw profile URL and
has BOTH a non-empty name AND a non-empty canonical URL (not: lacks
both).  (2) In the page-number search collection the first-seen record
for a canonical key wins.  (3) In visible mutual-connection scraping the
dedup map holds the LAST record seen for each canonical key. -/
theorem C7_dedup_behavior :
    (∀ (raws : List RawPeopleCard) (r : SearchPersonResult),
        r ∈ rawPeopleCardsToResults raws
          ↔ (∃ raw, raw ∈ raws ∧ ¬raw.profileUrl = "" ∧ normalizeCard raw = r)
            ∧ ¬r.name = "" ∧ ¬r.profileUrl = "")
    ∧ (∀ (seen : List (String × SearchPersonResult)) (parsed : List SearchPersonResult)
        (k : String),
        lookupKey k (insertAll seen parsed)
          = (lookupKey k seen).or (parsed.find? (fun p => p.profileUrl == k)))
    ∧ (∀ (mapped : List MutualConnectionResult) (k : String),
        lookupKey k (mapped.foldl (fun acc m => mapSet acc m.profileUrl m) [])
          = mapped.reverse.find? (fun m => m.profileUrl == k)) := by
  refine ⟨mem_rawPeopleCardsToResults, fun seen parsed k => lookup_insertAll parsed seen k,
    fun mapped k => ?_⟩
  rw [lookup_dedupe_general mapped [] k]
  cases mapped.reverse.find? (fun m => m.profileUrl == k) <;> simp [Option.or, lookupKey]

/-- C7 counterexample: (1) in visible mutual-connection scraping, two
scraped links with the same canonical profile URL keep the LAST record's
fields, not the first's; (2) a card with a name but an uncanonicalizable
profile URL is discarded even though it does not lack both name and
URL. -/
theorem C7_counterexample :
    scrapeVisibleMutualConnectionsPure
        [{ profileUrl := "https://www.linkedin.com/in/alice/", text := "Alice\nEngineer\nSF" },
         { profileUrl := "https://www.linkedin.com/in/alice/?trk=x",
           text := "Alicia\nDesigner\nLA" }]
      = [{ name := "Alicia", headline := "Designer", location := "LA",
           connectionDegree := "unknown",
           profileUrl := "https://www.linkedin.com/in/alice/" }]
    ∧ rawPeopleCardsToResults
        [{ name := "Bob", headline := "", location := "",
           connectionDegreeText := "", profileUrl := "http://%" }] = []
    ∧ ¬("Bob" : String) = "" :=
  ⟨by decide, by decide, by decide⟩

/-! ## Collection loops (linkedin.ts lines 402-462 and 1089-1195) -/

/-- The page loop of `collectPeopleResultsByPageNumber` (linkedin.ts
lines 414-459) over a batch oracle `batches` (the parsed cards the
browser yields on each page number).  Fuel is the remaining page budget
(`maxPages - visited`); tracks the consecutive-empty-page streak and the
number of pages visited.  There is NO stability rule: only empty-streak,
limit, and page budget stop the loop. -/
def collectPeopleLoop (batches : Nat → List SearchPersonResult) (limit : Nat) :
    Nat → Nat → List (String × SearchPersonResult) → Nat → Nat →
      List (String × SearchPersonResult) × Nat
  | 0, _, seen, _, rounds => (seen, rounds)
  | r + 1, pageNumber, seen, streak, rounds =>
    let parsed := batches pageNumber
    if parsed.isEmpty then
      if 2 ≤ streak + 1 then (seen, rounds + 1)
      else collectPeopleLoop batches limit r (pageNumber + 1) seen (streak + 1) (rounds + 1)
    else
      let seen2 := insertAll seen parsed
      if limit ≤ seen2.length then (seen2, rounds + 1)
      else collectPeopleLoop batches limit r (pageNumber + 1) seen2 0 (rounds + 1)

/-- Embedding of `collectPeopleResultsByPageNumber` (linkedin.ts lines
402-462) over a batch oracle: runs the page loop from page 1 with a
budget of `maxPages` pages and returns the deduped records truncated to
`limit`, paired with the number of pages visited. -/
def collectPeopleResultsByPageNumber (batches : Nat → List SearchPersonResult)
    (limit maxPages : Nat) : List SearchPersonResult × Nat :=
  let out := collectPeopleLoop batches limit maxPages 1 [] 0 0
  ((out.1.map Prod.snd).take limit, out.2)

/-- Post record returned by `listPosts`. -/
structure PostResult where
  text : String
  postUrl : String
  postedAt : String
  reactionCount : String
  commentCount : String
deriving Repr, DecidableEq

/-- Raw post card as scraped in one round of `listPosts`. -/
structure RawPost where
  text : String
  postUrl : String
  postedAt : String
  reactionCount : String
  commentCount : String
deriving Repr, DecidableEq

/-- Dedup key of one scraped post (linkedin.ts lines 1160-1161): the
normalized post URL, or `text:` plus the first 120 characters of the
text when no URL is available. -/
def postKey (post : RawPost) : String :=
  let normalizedUrl := if post.postUrl = "" then "" else normalizeProfileUrl post.postUrl
  if normalizedUrl = "" then "text:" ++ String.mk (post.text.data.take 120) else normalizedUrl

/-- Normalized record stored for one post (linkedin.ts lines 1163-1169). -/
def postRecord (post : RawPost) : PostResult :=
  { text := post.text
    postUrl := if post.postUrl = "" then "" else normalizeProfileUrl post.postUrl
    postedAt := post.postedAt
    reactionCount := post.reactionCount
    commentCount := post.commentCount }

/-- The per-round insertion loop of `listPosts` (linkedin.ts lines
1155-1171): skip posts with neither URL nor text, then first-wins
insertion under `postKey`. -/
def insertPosts (seen : List (String × PostResult)) (posts : List RawPost) :
    List (String × PostResult) :=
  posts.foldl
    (fun acc post =>
      if post.postUrl == "" && post.text == "" then acc
      else if (lookupKey (postKey post) acc).isSome then acc
      else acc ++ [(postKey post, postRecord post)]) seen

/-- The scroll loop of `listPosts` (linkedin.ts lines 1106-1191) over a
batch oracle: fuel is the remaining round budget (30 at the entry
point); tracks `stableRounds` and `previousCount`, breaking on the
limit, or on `stableRounds` reaching 4 (four consecutive rounds without
growth of the dedup map).  Returns the dedup map and the number of
rounds executed. -/
def listPostsLoop (batches : Nat → List RawPost) (limit : Nat) :
    Nat → List (String × PostResult) → Nat → Nat → Nat →
      List (String × PostResult) × Nat
  | 0, seen, _, _, rounds => (seen, rounds)
  | r + 1, seen, stable, prev, rounds =>
    let seen2 := insertPosts seen (batches rounds)
    if limit ≤ seen2.length then (seen2, rounds + 1)
    else if seen2.length == prev then
      if 4 ≤ stable + 1 then (seen2, rounds + 1)
      else listPostsLoop batches limit r seen2 (stable + 1) prev (rounds + 1)
    else listPostsLoop batches limit r seen2 0 seen2.length (rounds + 1)

/-- Embedding of the collection part of `listPosts` (linkedin.ts lines
1106-1195) over a batch oracle: runs the scroll loop with `maxRounds`
30 and returns the deduped posts truncated to `limit`, paired with the
number of rounds executed. -/
def listPosts (batches : Nat → List RawPost) (limit : Nat) : List PostResult × Nat :=
  let out := listPostsLoop batches limit 30 [] 0 0 0
  ((out.1.map Prod.snd).take limit, out.2)

theorem lookup_map_key (keyf : α → String) (valf : α → β) (l : List α) (p : α)
    (hp : p ∈ l) : (lookupKey (keyf p) (l.map (fun q => (keyf q, valf q)))).isSome = true := by
  induction l with
  | nil => cases hp
  | cons q rest ih =>
    rw [List.map_cons, lookupKey_cons]
    by_cases h : (((keyf q, valf q) : String × β).1 == keyf p) = true
    · rw [if_pos h]
      rfl
    · rw [if_neg h]
      rcases List.mem_cons.mp hp with rfl | hmem
      · exact absurd (by simp : (((keyf p, valf p) : String × β).1 == keyf p) = true) h
      · exact ih hmem

theorem insertAll_fresh (batch : List SearchPersonResult) :
    ∀ (seen : List (String × SearchPersonResult)),
    (∀ p ∈ batch, lookupKey p.profileUrl seen = none) →
    (batch.map (fun p => p.profileUrl)).Nodup →
    insertAll seen batch = seen ++ batch.map (fun p => (p.profileUrl, p)) := by
  induction batch with
  | nil =>
    intro seen _ _
    simp [insertAll]
  | cons p ps ih =>
    intro seen hnone hnodup
    have hnotin : p.profileUrl ∉ ps.map (fun p => p.profileUrl) :=
      (List.nodup_cons.mp (by simpa using hnodup)).1
    have hd : (ps.map (fun p => p.profileUrl)).Nodup :=
      (List.nodup_cons.mp (by simpa using hnodup)).2
    have hstep : insertAll seen (p :: ps) = insertAll (seen ++ [(p.profileUrl, p)]) ps := by
      unfold insertAll
      rw [List.foldl_cons]
      rw [hnone p (List.mem_cons_self p ps)]
      rw [if_neg (by simp)]
    have hn : ∀ q ∈ ps, lookupKey q.profileUrl (seen ++ [(p.profileUrl, p)]) = none := by
      intro q hq
      rw [lookupKey_append, hnone q (List.mem_cons_of_mem p hq), Option.none_or,
        lookupKey_cons]
      rw [if_neg (fun hbeq => hnotin
        (List.mem_map.mpr ⟨q, hq, (beq_iff_eq.mp hbeq).symm⟩))]
      rfl
    rw [hstep, ih _ hn hd]
    simp

theorem insertAll_noop (batch : List SearchPersonResult) :
    ∀ (seen : List (String × SearchPersonResult)),
    (∀ p ∈ batch, (lookupKey p.profileUrl seen).isSome = true) →
    insertAll seen batch = seen := by
  induction batch with
  | nil =>
    intro seen _
    simp [insertAll]
  | cons p ps ih =>
    intro seen hsome
    have hstep : insertAll seen (p :: ps) = insertAll seen ps := by
      unfold insertAll
      rw [List.foldl_cons]
      rw [if_pos (hsome p (List.mem_cons_self p ps))]
    rw [hstep, ih seen (fun q hq => hsome q (List.mem_cons_of_mem p hq))]

theorem insertPosts_fresh (batch : List RawPost) :
    ∀ (seen : List (String × PostResult)),
    (∀ p ∈ batch, (p.postUrl == "" && p.text == "") = false) →
    (∀ p ∈ batch, lookupKey (postKey p) seen = none) →
    (batch.map postKey).Nodup →
    insertPosts seen batch = seen ++ batch.map (fun p => (postKey p, postRecord p)) := by
  induction batch with
  | nil =>
    intro seen _ _ _
    simp [insertPosts]
  | cons p ps ih =>
    intro seen hskip hnone hnodup
    have hnotin : postKey p ∉ ps.map postKey := (List.nodup_cons.mp (by simpa using hnodup)).1
    have hd : (ps.map postKey).Nodup := (List.nodup_cons.mp (by simpa using hnodup)).2
    have hstep : insertPosts seen (p :: ps)
        = insertPosts (seen ++ [(postKey p, postRecord p)]) ps := by
      unfold insertPosts
      rw [List.foldl_cons]
      rw [hskip p (List.mem_cons_self p ps), if_neg (by simp)]
      rw [hnone p (List.mem_cons_self p ps)]
      rw [if_neg (by simp)]
    have hn : ∀ q ∈ ps, lookupKey (postKey q) (seen ++ [(postKey p, postRecord p)]) = none := by
      intro q hq
      rw [lookupKey_append, hnone q (List.mem_cons_of_mem p hq), Option.none_or,
        lookupKey_cons]
      rw [if_neg (fun hbeq => hnotin
        (List.mem_map.mpr ⟨q, hq, (beq_iff_eq.mp hbeq).symm⟩))]
      rfl
    rw [hstep, ih _ (fun q hq => hskip q (List.mem_cons_of_mem p hq)) hn hd]
    simp

theorem insertPosts_noop (batch : List RawPost) :
    ∀ (seen : List (String × PostResult)),
    (∀ p ∈ batch, (lookupKey (postKey p) seen).isSome = true) →
    insertPosts seen batch = seen := by
  induction batch with
  | nil =>
    intro seen _
    simp [insertPosts]
  | cons p ps ih =>
    intro seen hsome
    have hstep : insertPosts seen (p :: ps) = insertPosts seen ps := by
      unfold insertPosts
      rw [List.foldl_cons]
      cases hskip : (p.postUrl == "" && p.text == "") with
      | true => rw [if_pos rfl]
      | false =>
        rw [if_neg (by simp)]
        rw [if_pos (hsome p (List.mem_cons_self p ps))]
    rw [hstep, ih seen (fun q hq => hsome q (List.mem_cons_of_mem p hq))]

theorem collectPeopleLoop_steady (batches : Nat → List SearchPersonResult) (limit : Nat)
    (seen : List (String × SearchPersonResult))
    (hne : ∀ n, (batches n).isEmpty = false)
    (hins : ∀ n, insertAll seen (batches n) = seen)
    (hlt : ¬ limit ≤ seen.length) :
    ∀ (fuel pageN rounds : Nat),
    collectPeopleLoop batches limit fuel pageN seen 0 rounds = (seen, rounds + fuel) := by
  intro fuel
  induction fuel with
  | zero =>
    intro pageN rounds
    rfl
  | succ r ih =>
    intro pageN rounds
    unfold collectPeopleLoop
    dsimp only
    rw [if_neg (by simp [hne pageN])]
    rw [hins pageN]
    rw [if_neg hlt]
    rw [ih (pageN + 1) (rounds + 1)]
    exact congrArg (Prod.mk seen) (by omega)

theorem listPostsLoop_steady (batches : Nat → List RawPost) (limit : Nat)
    (seen : List (String × PostResult))
    (hins : ∀ n, insertPosts seen (batches n) = seen)
    (hlt : ¬ limit ≤ seen.length) :
    ∀ (fuel stable rounds : Nat), stable ≤ 3 → 4 - stable ≤ fuel →
    listPostsLoop batches limit fuel seen stable seen.length rounds
      = (seen, rounds + (4 - stable)) := by
  intro fuel
  induction fuel with
  | zero =>
    intro stable rounds h3 hf
    exact absurd hf (by omega)
  | succ r ih =>
    intro stable rounds h3 hf
    unfold listPostsLoop
    dsimp only
    rw [hins rounds]
    rw [if_neg hlt]
    rw [if_pos (by simp)]
    by_cases hs : 4 ≤ stable + 1
    · rw [if_pos hs]
      have h4 : stable = 3 := by omega
      subst h4
      rfl
    · rw [if_neg hs]
      rw [ih (stable + 1) (rounds + 1) (by omega) (by omega)]
      exact congrArg (Prod.mk seen) (by omega)

/-- C8 (amended): for a batch stub returning the same N records with
pairwise-distinct canonical keys every round, both collectors terminate
within their round budgets and return exactly min(N, limit) records in
first-seen order.  When N ≥ limit both stop via the limit rule after one
round.  When N < limit, `listPosts` stops via its stability streak after
5 rounds (short of its 30-round budget), but the page-number collector
has NO stability rule: it visits all `maxPages` pages. -/
theorem C8_convergent_collection :
    (∀ (batch : List SearchPersonResult) (limit maxPages : Nat),
        batch ≠ [] → (batch.map (fun p => p.profileUrl)).Nodup →
        1 ≤ maxPages → limit ≤ batch.length →
        collectPeopleResultsByPageNumber (fun _ => batch) limit maxPages
          = (batch.take limit, 1))
    ∧ (∀ (batch : List SearchPersonResult) (limit maxPages : Nat),
        batch ≠ [] → (batch.map (fun p => p.profileUrl)).Nodup →
        1 ≤ maxPages → batch.length < limit →
        collectPeopleResultsByPageNumber (fun _ => batch) limit maxPages
          = (batch, maxPages))
    ∧ (∀ (batch : List RawPost) (limit : Nat),
        (∀ p ∈ batch, (p.postUrl == "" && p.text == "") = false) →
        (batch.map postKey).Nodup →
        limit ≤ batch.length →
        listPosts (fun _ => batch) limit = ((batch.map postRecord).take limit, 1))
    ∧ (∀ (batch : List RawPost) (limit : Nat),
        batch ≠ [] →
        (∀ p ∈ batch, (p.postUrl == "" && p.text == "") = false) →
        (batch.map postKey).Nodup →
        batch.length < limit →
        listPosts (fun _ => batch) limit = (batch.map postRecord, 5)) := by
  refine ⟨?_, ?_, ?_, ?_⟩
  · intro batch limit maxPages hne hnodup hmp hlim
    obtain ⟨mp, rfl⟩ : ∃ mp, maxPages = mp + 1 := ⟨maxPages - 1, by omega⟩
    have hloop : collectPeopleLoop (fun _ => batch) limit (mp + 1) 1 [] 0 0
        = (batch.map (fun p => (p.profileUrl, p)), 1) := by
      unfold collectPeopleLoop
      dsimp only
      rw [if_neg (by simp [List.isEmpty_eq_false.mpr hne])]
      rw [insertAll_fresh batch [] (fun p _ => rfl) hnodup, List.nil_append]
      rw [if_pos (by rw [List.length_map]; exact hlim)]
    unfold collectPeopleResultsByPageNumber
    dsimp only
    rw [hloop]
    dsimp only
    rw [List.map_map]
    simp [Function.comp_def]
  · intro batch limit maxPages hne hnodup hmp hlim
    obtain ⟨mp, rfl⟩ : ∃ mp, maxPages = mp + 1 := ⟨maxPages - 1, by omega⟩
    have hfresh : insertAll [] batch = batch.map (fun p => (p.profileUrl, p)) := by
      simpa using insertAll_fresh batch [] (fun p _ => rfl) hnodup
    have hnoop : ∀ n : Nat,
        insertAll (batch.map (fun p => (p.profileUrl, p))) ((fun _ => batch) n)
          = batch.map (fun p => (p.profileUrl, p)) :=
      fun _ => insertAll_noop batch _
        (fun p hp => lookup_map_key (fun q => q.profileUrl) (fun q => q) batch p hp)
    have hlt : ¬ limit ≤ (batch.map (fun p => (p.profileUrl, p))).length := by
      rw [List.length_map]
      omega
    have hloop : collectPeopleLoop (fun _ => batch) limit (mp + 1) 1 [] 0 0
        = (batch.map (fun p => (p.profileUrl, p)), mp + 1) := by
      unfold collectPeopleLoop
      dsimp only
      rw [if_neg (by simp [List.isEmpty_eq_false.mpr hne])]
      rw [hfresh]
      rw [if_neg hlt]
      rw [collectPeopleLoop_steady (fun _ => batch) limit _
        (fun _ => List.isEmpty_eq_false.mpr hne) hnoop hlt mp 2 1]
      exact congrArg (Prod.mk _) (by omega)
    unfold collectPeopleResultsByPageNumber
    dsimp only
    rw [hloop]
    dsimp only
    rw [List.map_map]
    rw [show batch.map (Prod.snd ∘ fun p => (p.profileUrl, p)) = batch from by
      simp [Function.comp_def]]
    rw [List.take_of_length_le (by omega)]
  · intro batch limit hskip hnodup hlim
    have hfresh : insertPosts [] batch = batch.map (fun p => (postKey p, postRecord p)) := by
      simpa using insertPosts_fresh batch [] hskip (fun p _ => rfl) hnodup
    have hloop : listPostsLoop (fun _ => batch) limit 30 [] 0 0 0
        = (batch.map (fun p => (postKey p, postRecord p)), 1) := by
      rw [show (30 : Nat) = 29 + 1 from rfl]
      unfold listPostsLoop
      dsimp only
      rw [hfresh]
      rw [if_pos (by rw [List.length_map]; exact hlim)]
    unfold listPosts
    dsimp only
    rw [hloop]
    dsimp only
    rw [List.map_map]
    rw [show batch.map (Prod.snd ∘ fun p => (postKey p, postRecord p))
        = batch.map postRecord from by simp [Function.comp_def]]
  · intro batch limit hne hskip hnodup hlim
    have hfresh : insertPosts [] batch = batch.map (fun p => (postKey p, postRecord p)) := by
      simpa using insertPosts_fresh batch [] hskip (fun p _ => rfl) hnodup
    have hnoop : ∀ n : Nat,
        insertPosts (batch.map (fun p => (postKey p, postRecord p))) ((fun _ => batch) n)
          = batch.map (fun p => (postKey p, postRecord p)) :=
      fun _ => insertPosts_noop batch _
        (fun p hp => lookup_map_key postKey postRecord batch p hp)
    have hlt : ¬ limit ≤ (batch.map (fun p => (postKey p, postRecord p))).length := by
      rw [List.length_map]
      omega
    have hloop : listPostsLoop (fun _ => batch) limit 30 [] 0 0 0
        = (batch.map (fun p => (postKey p, postRecord p)), 5) := by
      rw [show (30 : Nat) = 29 + 1 from rfl]
      unfold listPostsLoop
      dsimp only
      rw [hfresh]
      rw [if_neg hlt]
      rw [if_neg (by
        simp [List.length_map, List.length_eq_zero]
        exact hne)]
      rw [listPostsLoop_steady (fun _ => batch) limit _ hnoop hlt 29 0 1 (by omega) (by omega)]
    unfold listPosts
    dsimp only
    rw [hloop]
    dsimp only
    rw [List.map_map]
    rw [show batch.map (Prod.snd ∘ fun p => (postKey p, postRecord p))
        = batch.map postRecord from by simp [Function.comp_def]]
    rw [List.take_of_length_le (by rw [List.length_map]; omega)]

/-- C8 counterexample: with a stub returning the same single record on
every page and limit 5, the page-number collector still returns that one
record, but only after visiting all 30 pages of its budget — there is no
stability-streak rule that stops it earlier. -/
theorem C8_counterexample :
    collectPeopleResultsByPageNumber
        (fun _ => [{ name := "Ann", headline := "", location := "",
                     connectionDegree := "unknown",
                     profileUrl := "https://www.linkedin.com/in/ann/" }]) 5 30
      = ([{ name := "Ann", headline := "", location := "",
            connectionDegree := "unknown",
            profileUrl := "https://www.linkedin.com/in/ann/" }], 30) := by decide

/-- Concrete records for the C8 witness. -/
def c8A : SearchPersonResult :=
  { name := "Ann", headline := "", location := "", connectionDegree := "unknown"
    profileUrl := "https://www.linkedin.com/in/ann/" }

def c8B : SearchPersonResult :=
  { name := "Bob", headline := "", location := "", connectionDegree := "unknown"
    profileUrl := "https://www.linkedin.com/in/bob/" }

def c8Post : RawPost :=
  { text := "Hello world", postUrl := "", postedAt := "", reactionCount := ""
    commentCount := "" }

/-- Witness for C8: the four parts of the amended theorem applied at
concrete constant batches. -/
theorem C8_convergent_collection_witness :
    collectPeopleResultsByPageNumber (fun _ => [c8A, c8B]) 1 30 = ([c8A, c8B].take 1, 1)
    ∧ collectPeopleResultsByPageNumber (fun _ => [c8A, c8B]) 3 7 = ([c8A, c8B], 7)
    ∧ listPosts (fun _ => [c8Post]) 1 = (([c8Post].map postRecord).take 1, 1)
    ∧ listPosts (fun _ => [c8Post]) 3 = ([c8Post].map postRecord, 5) :=
  ⟨C8_convergent_collection.1 [c8A, c8B] 1 30 (by decide) (by decide) (by decide) (by decide),
   C8_convergent_collection.2.1 [c8A, c8B] 3 7 (by decide) (by decide) (by decide) (by decide),
   C8_convergent_collection.2.2.1 [c8Post] 1 (by decide) (by decide) (by decide),
   C8_convergent_collection.2.2.2 [c8Post] 3 (by decide) (by decide) (by decide) (by decide)⟩

/-! ## Limit guards of the exported collection operations
(linkedin.ts lines 804-846, 852-875, 1089-1097 and 1201-1204) -/

/-- Embedding of `normalizeProfileBase` (linkedin.ts lines 1084-1087). -/
def normalizeProfileBase (url : String) : String :=
  let normalized := normalizeProfileUrl url
  if endsWithChars "/".data normalized.data then normalized else normalized ++ "/"

/-- Embedding of `getMutualConnections` (linkedin.ts lines 804-846):
the browser work after the navigation is supplied by the `browse`
oracle; the second component records the navigations performed.  The
`limit <= 0` guard comes FIRST, before URL canonicalization, the
invalid-URL check, and the same-site guard. -/
def getMutualConnections (browse : String → List MutualConnectionResult × List String)
    (targetProfileUrl : String) (limit : Int) :
    Except String (List MutualConnectionResult) × List String :=
  if limit ≤ 0 then (Except.ok [], [])
  else
    let canonicalTargetUrl := toCanonicalProfileUrl targetProfileUrl
    if canonicalTargetUrl = "" then (Except.error "Invalid target profile URL.", [])
    else
      match assertLinkedInUrl canonicalTargetUrl with
      | Except.error e => (Except.error e, [])
      | Except.ok () =>
        let out := browse canonicalTargetUrl
        (Except.ok (out.1.take limit.toNat), ("goto " ++ canonicalTargetUrl) :: out.2)

/-- Embedding of `getWarmIntroPaths` (linkedin.ts lines 852-875): the
`limit <= 0` guard comes FIRST, before resolving the own profile, the
target profile, and the mutual connections. -/
def getWarmIntroPaths (resolveSelf : Unit → String × List String)
    (getProfileOracle : String → WarmIntroTargetContext × List String)
    (browse : String → List MutualConnectionResult × List String)
    (targetProfileUrl : String) (limit : Int) :
    Except String (List WarmIntroPathResult) × List String :=
  if limit ≤ 0 then (Except.ok [], [])
  else
    let src := resolveSelf ()
    let tgt := getProfileOracle targetProfileUrl
    let muts := getMutualConnections browse (tgt.1).profileUrl limit
    match muts.1 with
    | Except.error e => (Except.error e, src.2 ++ tgt.2 ++ muts.2)
    | Except.ok ms =>
      (Except.ok ((buildWarmIntroPathsFromMutuals src.1 tgt.1 ms).take limit.toNat),
       src.2 ++ tgt.2 ++ muts.2)

/-- Embedding of the entry of `listPosts` (linkedin.ts lines 1089-1104):
the `limit <= 0` guard comes FIRST, before the profile URL is normalized
and the activity page is visited; the scroll collection is the
`listPosts` loop model. -/
def listPostsOp (batches : Nat → List RawPost) (profileUrl : String) (limit : Int) :
    Except String (List PostResult) × List String :=
  if limit ≤ 0 then (Except.ok [], [])
  else
    let base := normalizeProfileBase profileUrl
    (Except.ok (listPosts batches limit.toNat).1,
     ["goto " ++ base ++ "recent-activity/all/"])

/-- Embedding of the entry of `listConnections` (linkedin.ts lines
1201-1208): the `limit <= 0` guard comes FIRST, before the connections
page is visited. -/
def listConnections (oracle : Unit → List SearchPersonResult × List String) (limit : Int) :
    Except String (List SearchPersonResult) × List String :=
  if limit ≤ 0 then (Except.ok [], [])
  else
    let out := oracle ()
    (Except.ok (out.1.take limit.toNat),
     "goto https://www.linkedin.com/mynetwork/invite-connect/connections/" :: out.2)

/-- C10: every limit-taking collection operation returns the empty list
with no browser effect and no error as soon as limit ≤ 0, before any
validation — in particular an unparsable target profile URL does not
make them fail. -/
theorem C10_limit_guard :
    (∀ (browse : String → List MutualConnectionResult × List String)
        (url : String) (limit : Int), limit ≤ 0 →
        getMutualConnections browse url limit = (Except.ok [], []))
    ∧ (∀ (resolveSelf : Unit → String × List String)
        (getProfileOracle : String → WarmIntroTargetContext × List String)
        (browse : String → List MutualConnectionResult × List String)
        (url : String) (limit : Int), limit ≤ 0 →
        getWarmIntroPaths resolveSelf getProfileOracle browse url limit = (Except.ok [], []))
    ∧ (∀ (batches : Nat → List RawPost) (url : String) (limit : Int), limit ≤ 0 →
        listPostsOp batches url limit = (Except.ok [], []))
    ∧ (∀ (oracle : Unit → List SearchPersonResult × List String) (limit : Int), limit ≤ 0 →
        listConnections oracle limit = (Except.ok [], [])) := by
  refine ⟨?_, ?_, ?_, ?_⟩
  · intro browse url limit h
    unfold getMutualConnections
    rw [if_pos h]
  · intro resolveSelf getProfileOracle browse url limit h
    unfold getWarmIntroPaths
    rw [if_pos h]
  · intro batches url limit h
    unfold listPostsOp
    rw [if_pos h]
  · intro oracle limit h
    unfold listConnections
    rw [if_pos h]

/-- Witness for C10: all four operations applied with limit -1 and an
unparsable profile URL return the empty list with no effects and no
error. -/
theorem C10_limit_guard_witness :
    getMutualConnections (fun _ => ([], [])) "http://%" (-1) = (Except.ok [], [])
    ∧ getWarmIntroPaths (fun _ => ("", []))
        (fun _ => ({ profileUrl := "", name := "", headline := "", location := "" }, []))
        (fun _ => ([], [])) "http://%" (-1) = (Except.ok [], [])
    ∧ listPostsOp (fun _ => []) "http://%" (-1) = (Except.ok [], [])
    ∧ listConnections (fun _ => ([], [])) (-1) = (Except.ok [], []) :=
  ⟨C10_limit_guard.1 (fun _ => ([], [])) "http://%" (-1) (by decide),
   C10_limit_guard.2.1 (fun _ => ("", []))
     (fun _ => ({ profileUrl := "", name := "", headline := "", location := "" }, []))
     (fun _ => ([], [])) "http://%" (-1) (by decide),
   C10_limit_guard.2.2.1 (fun _ => []) "http://%" (-1) (by decide),
   C10_limit_guard.2.2.2 (fun _ => ([], [])) (-1) (by decide)⟩
